import Mathlib

/-!
# Consensus invoke command (`cmd/adapter/cmd/consensus_invoke.go`)

A shallow embedding of the client-side dispatch that shapes a kernel call for
the consensus module, and the properties claimed of it.

Conventions of the embedding.

* A Go `string` is a Lean `String`; a Go `[]byte` obtained by `[]byte(s)` is the
  same character sequence (`Bytes`).
* A Go `error` is `Option GoError`, `none` being `nil`.
* A Go `map[string]T` is an association list with unique keys (`GoMap`).
* The collaborators that live outside the file (`ioutil.ReadFile`,
  `json.Unmarshal`, `convertToXuper3Args`, `readAddress`, `CommTrans.Transfer`,
  `CommTrans.GenerateMultisigGenRawTx`, `utxo.TxVersion`) are the fields of an
  environment `Env`.  Each Go call returning `(value, err)` is a function into a
  pair, so that an assignment `ct.X, err = f(..)` stores the value also when
  `err` is not `nil`, as in Go.
* Every call to a collaborator is recorded, in order, in a trace of `Event`s.
* `context.Context` is only passed along and is left out.
* A JSON number of the descriptor is a finite binary64 value (`Float64`), as
  `json.Unmarshal` stores it in an `interface{}`.
* A nil map and an empty map are not told apart: the maps written to are those made
  by `make` in `invoke` or returned without error by the converter.
-/

namespace ConsensusInvoke

/-! ## Data model -/

/-- Go `error` values: a message. -/
structure GoError where
  msg : String
  deriving DecidableEq, Repr

/-- The value of `fmt.Errorf(msg)` for a format string without verbs. -/
def Errorf (msg : String) : GoError := ⟨msg⟩

/-- Go `[]byte`, here always produced from or compared with a string. -/
abbrev Bytes := String

/-- Go `map[string]T` as an association list. -/
abbrev GoMap (β : Type) := List (String × β)

/-- Map read `m[k]`, with presence. -/
def GoMap.get {β : Type} (m : GoMap β) (k : String) : Option β :=
  match m with
  | [] => none
  | (k', v) :: rest => if k' = k then some v else GoMap.get rest k

/-- Map write `m[k] = v`: the value of an existing key is replaced, a new key is added. -/
def GoMap.set {β : Type} (m : GoMap β) (k : String) (v : β) : GoMap β :=
  match m with
  | [] => [(k, v)]
  | (k', v') :: rest => if k' = k then (k, v) :: rest else (k', v') :: GoMap.set rest k v

/-- The keys of a map. -/
def GoMap.keys {β : Type} (m : GoMap β) : List String := m.map Prod.fst

/-- A finite binary64 number, the Go `float64` that `json.Unmarshal` stores for every
JSON number: the sign, an integer significand below 2^53 and a binary exponent, the
number being ±`mant` · 2^`exp`.  (A JSON text has no notation for NaN or an infinity.) -/
structure Float64 where
  neg : Bool
  mant : Nat
  exp : Int
  mant_lt : mant < 2 ^ 53
  exp_ge : -1074 ≤ exp
  exp_le : exp ≤ 971
  deriving DecidableEq, Repr

/-- The rational number a binary64 number stands for. -/
def Float64.value (f : Float64) : ℚ :=
  (if f.neg then -1 else 1) * (f.mant : ℚ) * (2 : ℚ) ^ f.exp

/-- The binary64 number of an integer of magnitude below 2^53, which is exact. -/
def Float64.ofInt (n : Int) (h : n.natAbs < 2 ^ 53) : Float64 :=
  ⟨decide (n < 0), n.natAbs, 0, h, by decide, by decide⟩

/-- Values a decoded descriptor can hold (`interface{}` after `json.Unmarshal`):
strings, numbers (always `float64`), booleans, nested structures (kept as their JSON
text) and null. -/
inductive DescValue where
  | str (s : String)
  | num (f : Float64)
  | bool (b : Bool)
  | nested (text : String)
  | null
  deriving DecidableEq, Repr

/-- The decoded descriptor, `map[string]interface{}`. -/
abbrev DescMap := GoMap DescValue

/-- The argument map of a draft, `map[string][]byte`. -/
abbrev Args := GoMap Bytes

/-- An opaque collaborator object (client connection, configuration). -/
abbrev Handle := Nat

/-- The fields of `cli.RootOptions` read by `invoke`. -/
structure RootOptions where
  Name : String
  Keys : String
  Crypto : String
  deriving DecidableEq, Repr

/-- The parts of `Cli` read by `invoke`. -/
structure Cli where
  RootOptions : RootOptions
  CliConf : Handle
  xchainClient : Handle
  deriving DecidableEq, Repr

/-- The transaction draft `CommTrans`, with the fields `invoke` and the handlers touch. -/
structure CommTrans where
  Version : Int
  Amount : String
  From : String
  To : String
  ModuleName : String
  ContractName : String
  MethodName : String
  Args : Args
  MultiAddrs : String
  IsQuick : Bool
  ChainName : String
  Keys : String
  XchainClient : Handle
  CryptoType : String
  CliConf : Handle
  Fee : String
  Output : String
  deriving DecidableEq, Repr

/-- The constant `ModuleName`. -/
def ModuleName : String := "xkernel"

/-- The struct `ConsensusInvokeCommand` (without the cobra command object). -/
structure ConsensusInvokeCommand where
  cli : Cli
  module : String
  chain : String
  bucket : String
  method : String
  descfile : String
  account : String
  fee : String
  isMulti : Bool
  multiAddrs : String
  output : String
  deriving DecidableEq, Repr

/-- The values cobra stores through the pointers registered by `addFlags`. -/
structure Flags where
  desc : String := ""
  type : String := ""
  method : String := ""
  account : String := ""
  fee : String := ""
  isMulti : Bool := false
  multiAddrs : String := "data/acl/addrs"
  output : String := "./tx.out"
  deriving DecidableEq, Repr

/-- The command built by `NewConsensusInvokeCommand` once cobra has stored the
parsed flags: `new(ConsensusInvokeCommand)`, `c.cli = cli`, `c.module = ModuleName`,
and the eight fields bound in `addFlags`. -/
def NewConsensusInvokeCommand (cli : Cli) (f : Flags) : ConsensusInvokeCommand :=
  { cli := cli
    module := ModuleName
    chain := ""
    bucket := f.type
    method := f.method
    descfile := f.desc
    account := f.account
    fee := f.fee
    isMulti := f.isMulti
    multiAddrs := f.multiAddrs
    output := f.output }

/-! ## Collaborators and effects -/

/-- One call to a collaborator, with its argument. -/
inductive Event where
  | printf (s : String)
  | readFile (path : String)
  | unmarshal (data : Bytes)
  | convert (args : DescMap)
  | readAddress (keys : String)
  | transfer (ct : CommTrans)
  | genMultisig (ct : CommTrans)
  deriving DecidableEq, Repr

/-- The functions called by the file and defined outside it. -/
structure Env where
  /-- The constant `utxo.TxVersion`. -/
  TxVersion : Int
  /-- The call `ioutil.ReadFile(path)`. -/
  ReadFile : String → Bytes × Option GoError
  /-- The call `json.Unmarshal(data, &args)`: the map after the call, and the error. -/
  Unmarshal : Bytes → DescMap → DescMap × Option GoError
  /-- The call `convertToXuper3Args(args)`. -/
  convertToXuper3Args : DescMap → Args × Option GoError
  /-- The call `readAddress(keys)`. -/
  readAddress : String → String × Option GoError
  /-- The call `ct.Transfer(ctx)`: the draft after the call, and the error. -/
  Transfer : CommTrans → CommTrans × Option GoError
  /-- The call `ct.GenerateMultisigGenRawTx(ctx)`: the draft after the call, and the error. -/
  GenerateMultisigGenRawTx : CommTrans → CommTrans × Option GoError

/-- What a run leaves behind: the returned error, the draft, the calls made. -/
structure Outcome where
  err : Option GoError
  ct : CommTrans
  trace : List Event
  deriving DecidableEq, Repr

/-- The event is a call to `ioutil.ReadFile`. -/
def Event.isReadFile : Event → Bool
  | .readFile _ => true
  | _ => false

/-- The event is a call to `readAddress`. -/
def Event.isReadAddress : Event → Bool
  | .readAddress _ => true
  | _ => false

/-- The event is a call to `Transfer`. -/
def Event.isTransfer : Event → Bool
  | .transfer _ => true
  | _ => false

/-- The event is a call to `GenerateMultisigGenRawTx`. -/
def Event.isGenMultisig : Event → Bool
  | .genMultisig _ => true
  | _ => false

/-- The event is a call to one of the two finalizers. -/
def Event.isFinalizer (e : Event) : Bool := e.isTransfer || e.isGenMultisig

/-- The draft a finalizer event was called on. -/
def Event.draft? : Event → Option CommTrans
  | .transfer ct => some ct
  | .genMultisig ct => some ct
  | _ => none

/-- The ACL text assembled in `tdposInvoke` around the address `addr`. -/
def simpleACL (addr : String) : String :=
  "\n        \x7b\n            \"pm\": \x7b\n                \"rule\": 1,\n                \"acceptValue\": 1.0\n            \x7d,\n            \"aksWeight\": \x7b\n                \"" ++ addr ++ "\": 1.0\n            \x7d\n        \x7d\n        "

/-! ## The handlers -/

/-- The method `tdposInvoke`. -/
def tdposInvoke (env : Env) (c : ConsensusInvokeCommand) (ct : CommTrans) : Outcome :=
  if c.descfile = "" then
    ⟨some (Errorf "tdpos needs desc file.\n"), ct, []⟩
  else
    let rd := env.ReadFile c.descfile
    let t1 := [Event.readFile c.descfile]
    match rd.2 with
    | some e => ⟨some e, ct, t1⟩
    | none =>
      let um := env.Unmarshal rd.1 []
      let t2 := t1 ++ [Event.unmarshal rd.1]
      match um.2 with
      | some e => ⟨some e, ct, t2⟩
      | none =>
        let cv := env.convertToXuper3Args um.1
        let t3 := t2 ++ [Event.convert um.1]
        let ct1 := { ct with Args := cv.1 }
        match cv.2 with
        | some e => ⟨some e, ct1, t3⟩
        | none =>
          let ra := env.readAddress ct1.Keys
          let t4 := t3 ++ [Event.readAddress ct1.Keys]
          let ct2 := { ct1 with To := ra.1 }
          match ra.2 with
          | some e => ⟨some e, ct2, t4⟩
          | none =>
            let ct3 :=
              if c.account ≠ "" then
                { ct2 with
                  From := c.account
                  Args := (ct2.Args.set "account_name" c.account).set "acl" (simpleACL ct2.To) }
              else ct2
            let fin := env.Transfer ct3
            ⟨fin.2, fin.1, t4 ++ [Event.transfer ct3]⟩

/-- The method `xpoaInvoke`. -/
def xpoaInvoke (env : Env) (c : ConsensusInvokeCommand) (ct : CommTrans) : Outcome :=
  if c.account = "" then
    ⟨some (Errorf "xpoa needs acl account.\n"), ct, []⟩
  else
    let ct0 := { ct with From := c.account }
    -- the optional descriptor block: error to return, draft, calls
    let blk : Option GoError × CommTrans × List Event :=
      if c.descfile ≠ "" then
        let rd := env.ReadFile c.descfile
        let t1 := [Event.readFile c.descfile]
        match rd.2 with
        | some e => (some e, ct0, t1)
        | none =>
          let um := env.Unmarshal rd.1 []
          let t2 := t1 ++ [Event.unmarshal rd.1]
          match um.2 with
          | some e => (some e, ct0, t2)
          | none =>
            let cv := env.convertToXuper3Args um.1
            let t3 := t2 ++ [Event.convert um.1]
            let ct1 := { ct0 with Args := cv.1 }
            match cv.2 with
            | some e => (some e, ct1, t3)
            | none => (none, ct1, t3)
      else (none, ct0, [])
    match blk.1 with
    | some e => ⟨some e, blk.2.1, blk.2.2⟩
    | none =>
      let ct1 := blk.2.1
      let ra := env.readAddress ct1.Keys
      let t4 := blk.2.2 ++ [Event.readAddress ct1.Keys]
      let ct2 := { ct1 with To := ra.1 }
      match ra.2 with
      | some e => ⟨some e, ct2, t4⟩
      | none =>
        let fin := env.GenerateMultisigGenRawTx ct2
        ⟨fin.2, fin.1, t4 ++ [Event.genMultisig ct2]⟩

/-- The type `invokeMethodFunc`. -/
abbrev invokeMethodFunc := Env → ConsensusInvokeCommand → CommTrans → Outcome

/-- The table `invokeMap`. -/
def invokeMap : GoMap invokeMethodFunc :=
  [("tdpos", tdposInvoke), ("xpoa", xpoaInvoke)]

/-- The method `consensusRun`. -/
def consensusRun (env : Env) (c : ConsensusInvokeCommand) (method : invokeMethodFunc)
    (ct : CommTrans) : Outcome :=
  method env c ct

/-- The draft built at the start of `invoke`. -/
def newDraft (env : Env) (c : ConsensusInvokeCommand) : CommTrans :=
  { Version := env.TxVersion
    Amount := "0"
    From := c.account
    To := ""
    ModuleName := c.module
    ContractName := "$" ++ c.bucket
    MethodName := c.method
    Args := []
    MultiAddrs := c.multiAddrs
    IsQuick := c.isMulti
    ChainName := c.cli.RootOptions.Name
    Keys := c.cli.RootOptions.Keys
    XchainClient := c.cli.xchainClient
    CryptoType := c.cli.RootOptions.Crypto
    CliConf := c.cli.CliConf
    Fee := c.fee
    Output := c.output }

/-- The method `invoke`. -/
def invoke (env : Env) (c : ConsensusInvokeCommand) : Outcome :=
  let ct := newDraft env c
  match invokeMap.get c.bucket with
  | none => ⟨none, ct, [Event.printf "consensus type error.\n"]⟩
  | some method => consensusRun env c method ct

/-! ## Reading a descriptor, as both handlers do it -/

/-- The bytes `ioutil.ReadFile` returns for the descriptor of `c`. -/
def descBytes (env : Env) (c : ConsensusInvokeCommand) : Bytes := (env.ReadFile c.descfile).1

/-- The map `json.Unmarshal` leaves for the descriptor of `c`. -/
def descMap (env : Env) (c : ConsensusInvokeCommand) : DescMap :=
  (env.Unmarshal (descBytes env c) []).1

/-- The arguments `convertToXuper3Args` returns for the descriptor of `c`. -/
def descArgs (env : Env) (c : ConsensusInvokeCommand) : Args :=
  (env.convertToXuper3Args (descMap env c)).1

/-- The descriptor of `c` is read, parsed and converted without error. -/
def DescriptorLoads (env : Env) (c : ConsensusInvokeCommand) : Prop :=
  (env.ReadFile c.descfile).2 = none ∧
  (env.Unmarshal (descBytes env c) []).2 = none ∧
  (env.convertToXuper3Args (descMap env c)).2 = none

instance (env : Env) (c : ConsensusInvokeCommand) : Decidable (DescriptorLoads env c) := by
  unfold DescriptorLoads; infer_instance

/-- The draft `tdposInvoke` hands to `Transfer` when every step succeeds. -/
def tdposFinal (env : Env) (c : ConsensusInvokeCommand) (ct : CommTrans) : CommTrans :=
  if c.account ≠ "" then
    { ct with
      From := c.account
      To := (env.readAddress ct.Keys).1
      Args := ((descArgs env c).set "account_name" c.account).set "acl"
        (simpleACL (env.readAddress ct.Keys).1) }
  else
    { ct with To := (env.readAddress ct.Keys).1, Args := descArgs env c }

/-- The draft `xpoaInvoke` hands to `GenerateMultisigGenRawTx` when every step succeeds. -/
def xpoaFinal (env : Env) (c : ConsensusInvokeCommand) (ct : CommTrans) : CommTrans :=
  if c.descfile ≠ "" then
    { ct with From := c.account, To := (env.readAddress ct.Keys).1, Args := descArgs env c }
  else
    { ct with From := c.account, To := (env.readAddress ct.Keys).1 }

/-- The run returns the error `e` and has called no finalizer. -/
def AbortsWith (out : Outcome) (e : GoError) : Prop :=
  out.err = some e ∧ ∀ ev ∈ out.trace, ev.isFinalizer = false

/-- Loading the descriptor of `c` fails with `e`: the read fails with `e`, or the read
succeeds and the parse fails with `e`, or both succeed and the conversion fails with `e`. -/
def DescriptorFails (env : Env) (c : ConsensusInvokeCommand) (e : GoError) : Prop :=
  (env.ReadFile c.descfile).2 = some e ∨
  ((env.ReadFile c.descfile).2 = none ∧ (env.Unmarshal (descBytes env c) []).2 = some e) ∨
  ((env.ReadFile c.descfile).2 = none ∧ (env.Unmarshal (descBytes env c) []).2 = none ∧
    (env.convertToXuper3Args (descMap env c)).2 = some e)

/-! ## Reading a JSON text

The ACL argument is specified as a JSON document.  To state what document the text
assembled by `tdposInvoke` is, the grammar of RFC 8259 is given here as a scanner
followed by a recursive-descent reader. -/

/-- A JSON value; a number keeps its literal. -/
inductive JVal where
  | null
  | bool (b : Bool)
  | num (lit : String)
  | str (s : String)
  | arr (items : List JVal)
  | obj (members : List (String × JVal))
  deriving Repr

/-- The tokens of a JSON text. -/
inductive Token where
  | lbrace | rbrace | lbrack | rbrack | colon | comma
  | str (s : String)
  | num (lit : String)
  | tru | fls | nul
  deriving DecidableEq, Repr

/-- Where the scanner stands: between tokens, inside a bare word (number or literal
name), inside a string, after a backslash, inside the four digits of a `\u` escape
(`hi` holding a pending high surrogate), or after a high surrogate, waiting for the
backslash and then the `u` of the low one.  Characters read so far are kept in reverse. -/
inductive Mode where
  | top
  | atom (acc : List Char)
  | str (acc : List Char)
  | esc (acc : List Char)
  | uni (acc : List Char) (hex : List Char) (hi : Option Nat)
  | lowEsc (acc : List Char) (hi : Nat)
  | lowU (acc : List Char) (hi : Nat)
  deriving DecidableEq, Repr

/-- The scanner state: the mode and the tokens produced so far, last first. -/
structure LexState where
  mode : Mode
  toks : List Token
  deriving DecidableEq, Repr

/-- JSON whitespace. -/
def isWs (c : Char) : Bool := c = ' ' || c = '\n' || c = '\r' || c = '\t'

/-- A decimal digit. -/
def isDigit (c : Char) : Bool := 48 ≤ c.toNat && c.toNat ≤ 57

/-- The value of a hexadecimal digit. -/
def hexVal (c : Char) : Option Nat :=
  if 48 ≤ c.toNat ∧ c.toNat ≤ 57 then some (c.toNat - 48)
  else if 97 ≤ c.toNat ∧ c.toNat ≤ 102 then some (c.toNat - 87)
  else if 65 ≤ c.toNat ∧ c.toNat ≤ 70 then some (c.toNat - 55)
  else none

/-- One or more digits and nothing else. -/
def isDigits (cs : List Char) : Bool := !cs.isEmpty && cs.all isDigit

/-- The exponent part of a number, possibly absent. -/
def isExp (cs : List Char) : Bool :=
  match cs with
  | [] => true
  | e :: rest =>
    (e = 'e' || e = 'E') &&
      (match rest with
       | s :: ds => if s = '+' || s = '-' then isDigits ds else isDigits rest
       | [] => false)

/-- The fraction and exponent parts of a number, possibly absent. -/
def isFracExp (cs : List Char) : Bool :=
  match cs with
  | '.' :: rest =>
    let ds := rest.takeWhile isDigit
    !ds.isEmpty && isExp (rest.dropWhile isDigit)
  | _ => isExp cs

/-- The grammar of a JSON number after the optional minus sign. -/
def isUnsignedNumber (cs : List Char) : Bool :=
  match cs with
  | [] => false
  | d :: rest =>
    if d = '0' then isFracExp rest
    else isDigit d && isFracExp (rest.dropWhile isDigit)

/-- The grammar of a JSON number (RFC 8259, section 6). -/
def isNumber (cs : List Char) : Bool :=
  match cs with
  | '-' :: rest => isUnsignedNumber rest
  | _ => isUnsignedNumber cs

/-- The token of a bare word, if it is one. -/
def atomToken (cs : List Char) : Option Token :=
  if cs = ['t', 'r', 'u', 'e'] then some Token.tru
  else if cs = ['f', 'a', 'l', 's', 'e'] then some Token.fls
  else if cs = ['n', 'u', 'l', 'l'] then some Token.nul
  else if isNumber cs then some (Token.num (String.mk cs))
  else none

/-- The scanner between tokens. -/
def stepTop (toks : List Token) (c : Char) : Option LexState :=
  if isWs c then some ⟨Mode.top, toks⟩
  else if c = '{' then some ⟨Mode.top, Token.lbrace :: toks⟩
  else if c = '}' then some ⟨Mode.top, Token.rbrace :: toks⟩
  else if c = '[' then some ⟨Mode.top, Token.lbrack :: toks⟩
  else if c = ']' then some ⟨Mode.top, Token.rbrack :: toks⟩
  else if c = ':' then some ⟨Mode.top, Token.colon :: toks⟩
  else if c = ',' then some ⟨Mode.top, Token.comma :: toks⟩
  else if c = '"' then some ⟨Mode.str [], toks⟩
  else some ⟨Mode.atom [c], toks⟩

/-- The character ends a bare word. -/
def endsAtom (c : Char) : Bool :=
  isWs c || c = '{' || c = '}' || c = '[' || c = ']' || c = ':' || c = ',' || c = '"'

/-- The character of a UTF-16 code unit or surrogate pair, when it is a scalar value. -/
def scalar (n : Nat) : Option Char :=
  if h : n.isValidChar then some (Char.ofNatAux n h) else none

/-- One step of the scanner. -/
def lexStep (st : LexState) (c : Char) : Option LexState :=
  match st.mode with
  | Mode.top => stepTop st.toks c
  | Mode.atom acc =>
    if endsAtom c then
      (atomToken acc.reverse).bind fun t => stepTop (t :: st.toks) c
    else some ⟨Mode.atom (c :: acc), st.toks⟩
  | Mode.str acc =>
    if c = '"' then some ⟨Mode.top, Token.str (String.mk acc.reverse) :: st.toks⟩
    else if c = '\\' then some ⟨Mode.esc acc, st.toks⟩
    else if c.toNat < 32 then none
    else some ⟨Mode.str (c :: acc), st.toks⟩
  | Mode.esc acc =>
    if c = '"' then some ⟨Mode.str ('"' :: acc), st.toks⟩
    else if c = '\\' then some ⟨Mode.str ('\\' :: acc), st.toks⟩
    else if c = '/' then some ⟨Mode.str ('/' :: acc), st.toks⟩
    else if c = 'b' then some ⟨Mode.str (Char.ofNat 8 :: acc), st.toks⟩
    else if c = 'f' then some ⟨Mode.str (Char.ofNat 12 :: acc), st.toks⟩
    else if c = 'n' then some ⟨Mode.str ('\n' :: acc), st.toks⟩
    else if c = 'r' then some ⟨Mode.str ('\r' :: acc), st.toks⟩
    else if c = 't' then some ⟨Mode.str ('\t' :: acc), st.toks⟩
    else if c = 'u' then some ⟨Mode.uni acc [] none, st.toks⟩
    else none
  | Mode.uni acc hex hi =>
    match hexVal c with
    | none => none
    | some _ =>
      if hex.length < 3 then some ⟨Mode.uni acc (c :: hex) hi, st.toks⟩
      else
        let n := ((c :: hex).reverse.filterMap hexVal).foldl (fun a d => 16 * a + d) 0
        match hi with
        | none =>
          if 0xD800 ≤ n ∧ n < 0xDC00 then some ⟨Mode.lowEsc acc n, st.toks⟩
          else (scalar n).map fun ch => ⟨Mode.str (ch :: acc), st.toks⟩
        | some h =>
          if 0xDC00 ≤ n ∧ n < 0xE000 then
            (scalar (0x10000 + (h - 0xD800) * 0x400 + (n - 0xDC00))).map
              fun ch => ⟨Mode.str (ch :: acc), st.toks⟩
          else none
  | Mode.lowEsc acc hi => if c = '\\' then some ⟨Mode.lowU acc hi, st.toks⟩ else none
  | Mode.lowU acc hi => if c = 'u' then some ⟨Mode.uni acc [] (some hi), st.toks⟩ else none

/-- The scanner run over a character sequence. -/
def lexRun (st : LexState) : List Char → Option LexState
  | [] => some st
  | c :: cs => (lexStep st c).bind fun st' => lexRun st' cs

/-- The tokens of a text: the scanner must end between tokens or in a bare word. -/
def lex (cs : List Char) : Option (List Token) :=
  (lexRun ⟨Mode.top, []⟩ cs).bind fun st =>
    match st.mode with
    | Mode.top => some st.toks.reverse
    | Mode.atom acc => (atomToken acc.reverse).map fun t => (t :: st.toks).reverse
    | _ => none

mutual
/-- A value at the head of the tokens, and the tokens left. -/
def parseValue : Nat → List Token → Option (JVal × List Token)
  | 0, _ => none
  | fuel + 1, toks =>
    match toks with
    | Token.str s :: r => some (JVal.str s, r)
    | Token.num l :: r => some (JVal.num l, r)
    | Token.tru :: r => some (JVal.bool true, r)
    | Token.fls :: r => some (JVal.bool false, r)
    | Token.nul :: r => some (JVal.null, r)
    | Token.lbrack :: Token.rbrack :: r => some (JVal.arr [], r)
    | Token.lbrack :: r => (parseElems fuel r).map fun p => (JVal.arr p.1, p.2)
    | Token.lbrace :: Token.rbrace :: r => some (JVal.obj [], r)
    | Token.lbrace :: r => (parseMembers fuel r).map fun p => (JVal.obj p.1, p.2)
    | _ => none
/-- The elements of an array after its bracket, up to the closing bracket. -/
def parseElems : Nat → List Token → Option (List JVal × List Token)
  | 0, _ => none
  | fuel + 1, toks =>
    match parseValue fuel toks with
    | none => none
    | some (v, Token.comma :: r) => (parseElems fuel r).map fun p => (v :: p.1, p.2)
    | some (v, Token.rbrack :: r) => some ([v], r)
    | some _ => none
/-- The members of an object after its brace, up to the closing brace. -/
def parseMembers : Nat → List Token → Option (List (String × JVal) × List Token)
  | 0, _ => none
  | fuel + 1, toks =>
    match toks with
    | Token.str k :: Token.colon :: r =>
      match parseValue fuel r with
      | none => none
      | some (v, Token.comma :: r') => (parseMembers fuel r').map fun p => ((k, v) :: p.1, p.2)
      | some (v, Token.rbrace :: r') => some ([(k, v)], r')
      | some _ => none
    | _ => none
end

/-- The JSON value a text denotes, if it is a well-formed JSON text. -/
def readJSON (s : String) : Option JVal :=
  (lex s.data).bind fun toks =>
    match parseValue (toks.length + 1) toks with
    | some (v, []) => some v
    | _ => none

/-- The characters of the ACL text before the address. -/
def aclPrefix : List Char :=
  "\n        \x7b\n            \"pm\": \x7b\n                \"rule\": 1,\n                \"acceptValue\": 1.0\n            \x7d,\n            \"aksWeight\": \x7b\n                \"".data

/-- The characters of the ACL text after the address. -/
def aclSuffix : List Char :=
  "\": 1.0\n            \x7d\n        \x7d\n        ".data

/-- The policy document with rule 1, acceptance threshold 1.0 and the single signer
`addr` of weight 1.0. -/
def singleSignerACL (addr : String) : JVal :=
  JVal.obj
    [("pm", JVal.obj [("rule", JVal.num "1"), ("acceptValue", JVal.num "1.0")]),
     ("aksWeight", JVal.obj [(addr, JVal.num "1.0")])]

/-- The character stands for itself inside a JSON string: it is not the double quote,
not the backslash and not a control character below U+0020. -/
def plainChar (c : Char) : Bool := c ≠ '"' && c ≠ '\\' && 32 ≤ c.toNat

/-- Every character of the string stands for itself inside a JSON string. -/
def plainString (s : String) : Bool := s.data.all plainChar

/-- The drafts handed to a finalizer in a trace, in order. -/
def finalizerDrafts (tr : List Event) : List CommTrans := tr.filterMap Event.draft?

/-- The property claimed of the draft of a tdpos run with an account: exactly one draft
reaches a finalizer, its "account_name" argument is the account, and its "acl" argument
reads as the single-signer policy document over the resolved address. -/
def ACLHolds (env : Env) (c : ConsensusInvokeCommand) : Prop :=
  ∃ d, finalizerDrafts (invoke env c).trace = [d] ∧
    d.Args.get "account_name" = some c.account ∧
    (d.Args.get "acl").bind readJSON =
      some (singleSignerACL (env.readAddress c.cli.RootOptions.Keys).1)

/-! ## The argument converter -/

/-- The character of the decimal digit `d`. -/
def digitChar (d : Nat) : Char := Char.ofNat (48 + d)

/-- The value of a decimal digit character. -/
def digitVal (c : Char) : Nat := c.toNat - 48

/-- The decimal digits of `n`, least significant first, none for zero. -/
def lsdDigits : Nat → Nat → List Nat
  | 0, _ => []
  | fuel + 1, n => if n = 0 then [] else (n % 10) :: lsdDigits fuel (n / 10)

/-- The decimal numeral of a natural number. -/
def natDigits (n : Nat) : List Char :=
  if n = 0 then ['0'] else (lsdDigits n n).reverse.map digitChar

/-- The `k` lowest decimal digits of `r`, least significant first. -/
def fixDigits : Nat → Nat → List Nat
  | 0, _ => []
  | k + 1, r => (r % 10) :: fixDigits k (r / 10)

/-- The pair `(n, k)` standing for `n / 10 ^ k`, with the trailing zeros of `n`
removed as far as `k` allows. -/
def stripZeros : Nat → Nat → Nat × Nat
  | 0, n => (n, 0)
  | k + 1, n => if n % 10 = 0 then stripZeros k (n / 10) else (n, k + 1)

/-- The magnitude of a binary64 number as `n / 10 ^ k` with the least `k`: a
non-negative exponent gives an integer, a negative exponent `-e` gives
`mant · 5 ^ e / 10 ^ e`, reduced. -/
def Float64.decimal (f : Float64) : Nat × Nat :=
  if 0 ≤ f.exp then (f.mant * 2 ^ f.exp.toNat, 0)
  else stripZeros (-f.exp).toNat (f.mant * 5 ^ (-f.exp).toNat)

/-- The positional decimal text of `n / 10 ^ k`: the integer part, then, when `k` is
not zero, the point and `k` fraction digits. -/
def unsignedText (n k : Nat) : List Char :=
  natDigits (n / 10 ^ k) ++
    (if k = 0 then [] else '.' :: (fixDigits k n).reverse.map digitChar)

/-- The canonical decimal text of a binary64 number: its exact value in positional
decimal notation, with a minus sign when the sign bit is set, no exponent, no leading
zero before the integer part and no trailing zero after the point. -/
def decimalText (f : Float64) : String :=
  String.mk ((if f.neg then ['-'] else []) ++ unsignedText f.decimal.1 f.decimal.2)

/-- The number written by a sequence of decimal digit characters. -/
def natOfDigits (cs : List Char) : Nat := cs.foldl (fun a c => 10 * a + digitVal c) 0

/-- The rational number written by an unsigned positional decimal text: digits,
then possibly a point and more digits. -/
def readUnsigned (cs : List Char) : Option ℚ :=
  let ip := cs.takeWhile isDigit
  if ip.isEmpty then none
  else
    match cs.dropWhile isDigit with
    | [] => some (natOfDigits ip : ℚ)
    | c :: fs =>
      if c = '.' ∧ fs ≠ [] ∧ fs.all isDigit = true then
        some ((natOfDigits ip : ℚ) + (natOfDigits fs : ℚ) / (10 : ℚ) ^ fs.length)
      else none

/-- The rational number written by a positional decimal text with an optional minus
sign. -/
def readDecimal (cs : List Char) : Option ℚ :=
  match cs with
  | '-' :: r => (readUnsigned r).map fun q => -q
  | _ => readUnsigned cs

/-- The unsigned text is canonical: the integer part is "0" or starts with a non-zero
digit, and a fraction, when present, is not empty and does not end in a zero. -/
def isCanonicalUnsigned (cs : List Char) : Bool :=
  let ip := cs.takeWhile isDigit
  (ip = ['0'] || (!ip.isEmpty && ip.head? ≠ some '0')) &&
    (match cs.dropWhile isDigit with
     | [] => true
     | c :: fs => c = '.' && !fs.isEmpty && fs.all isDigit && fs.getLast? ≠ some '0')

/-- The text is a canonical positional decimal numeral, with an optional minus sign. -/
def isCanonicalDecimal (cs : List Char) : Bool :=
  match cs with
  | '-' :: r => isCanonicalUnsigned r
  | _ => isCanonicalUnsigned cs

/-- The bytes of one descriptor value, by the rules of the argument converter: a string
gives its own bytes, a number its canonical decimal text, a boolean the text "true" or
"false", a nested structure its JSON text; null is not a supported type. -/
def convertValue : DescValue → Option Bytes
  | DescValue.str s => some s
  | DescValue.num f => some (decimalText f)
  | DescValue.bool b => some (if b then "true" else "false")
  | DescValue.nested text => some text
  | DescValue.null => none

/-- The loop of the argument converter over the entries of the descriptor. -/
def convertLoop (argmap : Args) : DescMap → Args × Option GoError
  | [] => (argmap, none)
  | (k, v) :: rest =>
    match convertValue v with
    | some b => convertLoop (argmap.set k b) rest
    | none => ([], some (Errorf ("ArgumentDecodeError: unsupported value for " ++ k)))

/-- Modelled from the spec: `convertToXuper3Args`, which is called by both handlers and
defined in another file of the package.  Section 4.1 of the specification: every value
of the structured map is turned into bytes by its kind (`convertValue`), under the same
key, and a value of an unsupported type fails the conversion. -/
def convertToXuper3Args (args : DescMap) : Args × Option GoError :=
  convertLoop [] args

/-! ## Sample collaborators, for evaluating the definitions -/

/-- An environment in which every collaborator succeeds: the descriptor holds one
string argument and the local address is `addr`. -/
def okEnv (addr : String) : Env :=
  { TxVersion := 1
    ReadFile := fun _ => ("\x7b\"k\": \"v\"\x7d", none)
    Unmarshal := fun _ _ => ([("k", DescValue.str "v")], none)
    convertToXuper3Args := fun _ => ([("k", "v")], none)
    readAddress := fun _ => (addr, none)
    Transfer := fun ct => (ct, none)
    GenerateMultisigGenRawTx := fun ct => (ct, some (Errorf "no multisig address file")) }

/-- The environment `okEnv` with the step number `i` (0 read, 1 parse, 2 convert,
3 address) failing. -/
def failEnv (i : Nat) : Env :=
  { okEnv "dpzuVdosQrF2kmzumhVeFQZa1aYcdgFpN" with
    ReadFile := fun _ => if i = 0 then ("", some (Errorf "read")) else ("\x7b\x7d", none)
    Unmarshal := fun _ m => if i = 1 then (m, some (Errorf "parse")) else ([], none)
    convertToXuper3Args := fun _ => if i = 2 then ([], some (Errorf "convert")) else ([], none)
    readAddress := fun _ => if i = 3 then ("", some (Errorf "address")) else ("a", none) }

/-- The environment `okEnv` with the converter of the specification, the descriptor
being the map with a ↦ "x", b ↦ 3, c ↦ true. -/
def specEnv : Env :=
  { okEnv "dpzuVdosQrF2kmzumhVeFQZa1aYcdgFpN" with
    ReadFile := fun _ => ("\x7b\"a\": \"x\", \"b\": 3, \"c\": true\x7d", none)
    Unmarshal := fun _ _ =>
      ([("a", DescValue.str "x"), ("b", DescValue.num (Float64.ofInt 3 (by decide))),
        ("c", DescValue.bool true)], none)
    convertToXuper3Args := convertToXuper3Args }

/-- A sample `Cli`. -/
def sampleCli : Cli := { RootOptions := ⟨"xuper", "./data/keys", "default"⟩, CliConf := 0, xchainClient := 1 }

/-- A sample command for the bucket `bucket`. -/
def sampleCmd (bucket desc account : String) (isMulti : Bool) : ConsensusInvokeCommand :=
  NewConsensusInvokeCommand sampleCli
    { type := bucket, method := "nominateCandidate", desc := desc, account := account,
      fee := "1000", isMulti := isMulti }

/-! # Theorems -/

/-! ## Dispatch -/

/-- C1: a bucket has a handler exactly when it is "tdpos" or "xpoa" (the match is
exact: "TDPOS", "Xpoa", " tdpos" and "" have none); `invoke` returns the result of
`tdposInvoke` for "tdpos" and of `xpoaInvoke` for "xpoa", run on the fresh draft; for
every other bucket it returns nil and its only call is the `Printf` of the message,
so that no file is read, no address resolved and no finalizer called. -/
theorem invoke_dispatch (env : Env) (c : ConsensusInvokeCommand) :
    ((invokeMap.get c.bucket).isSome = true ↔ (c.bucket = "tdpos" ∨ c.bucket = "xpoa")) ∧
    (invokeMap.get "TDPOS").isSome = false ∧ (invokeMap.get "Xpoa").isSome = false ∧
    (invokeMap.get " tdpos").isSome = false ∧ (invokeMap.get "").isSome = false ∧
    invoke env c =
      (if c.bucket = "tdpos" then tdposInvoke env c (newDraft env c)
       else if c.bucket = "xpoa" then xpoaInvoke env c (newDraft env c)
       else ⟨none, newDraft env c, [Event.printf "consensus type error.\n"]⟩) ∧
    ((invokeMap.get c.bucket).isSome = false →
      (invoke env c).err = none ∧
      (invoke env c).trace = [Event.printf "consensus type error.\n"] ∧
      ∀ ev ∈ (invoke env c).trace, ev.isReadFile = false ∧ ev.isReadAddress = false ∧
        ev.isTransfer = false ∧ ev.isGenMultisig = false) := by
  refine ⟨?_, by decide, by decide, by decide, by decide, ?_, ?_⟩
  · by_cases h1 : c.bucket = "tdpos"
    · simp [invokeMap, GoMap.get, h1]
    · by_cases h2 : c.bucket = "xpoa"
      · simp [invokeMap, GoMap.get, h2]
      · simp [invokeMap, GoMap.get, h1, h2, Ne.symm h1, Ne.symm h2]
  · by_cases h1 : c.bucket = "tdpos"
    · simp [invoke, invokeMap, GoMap.get, h1, consensusRun]
    · by_cases h2 : c.bucket = "xpoa"
      · simp [invoke, invokeMap, GoMap.get, h2, consensusRun]
      · simp [invoke, invokeMap, GoMap.get, h1, h2, Ne.symm h1, Ne.symm h2]
  · intro h
    have hn : invokeMap.get c.bucket = none := by
      cases hg : invokeMap.get c.bucket with
      | none => rfl
      | some f => rw [hg] at h; simp at h
    simp [invoke, hn, Event.isReadFile, Event.isReadAddress, Event.isTransfer,
      Event.isGenMultisig]

/-- Evaluation of C1 at the unregistered bucket "TDPOS". -/
theorem invoke_dispatch_witness :
    (invokeMap.get (sampleCmd "TDPOS" "desc.json" "XC1111111111111111@xuper" true).bucket).isSome
        = false ∧
      (invoke (okEnv "a") (sampleCmd "TDPOS" "desc.json" "XC1111111111111111@xuper" true)).err
        = none ∧
      (invoke (okEnv "a") (sampleCmd "TDPOS" "desc.json" "XC1111111111111111@xuper" true)).trace
        = [Event.printf "consensus type error.\n"] :=
  have h : (invokeMap.get
      (sampleCmd "TDPOS" "desc.json" "XC1111111111111111@xuper" true).bucket).isSome = false := by
    decide
  ⟨h, ((invoke_dispatch (okEnv "a") _).2.2.2.2.2.2 h).1,
    ((invoke_dispatch (okEnv "a") _).2.2.2.2.2.2 h).2.1⟩

/-! ## Preconditions of the handlers -/

/-- C2: with an empty descriptor path `tdposInvoke` returns the error
"tdpos needs desc file." whatever the account, method, fee and multisig flag; it has
then made no call at all (no file read, no address resolution, no finalizer) and the
draft is the one it was given. -/
theorem tdposInvoke_missing_desc (env : Env) (c : ConsensusInvokeCommand) (ct : CommTrans)
    (h : c.descfile = "") :
    (tdposInvoke env c ct).err = some (Errorf "tdpos needs desc file.\n") ∧
    (tdposInvoke env c ct).trace = [] ∧
    (tdposInvoke env c ct).ct = ct := by
  simp [tdposInvoke, h]

/-- Evaluation of C2 on a command with an account and the multisig flag set. -/
theorem tdposInvoke_missing_desc_witness :
    (sampleCmd "tdpos" "" "XC1111111111111111@xuper" true).descfile = "" ∧
    (tdposInvoke (okEnv "a") (sampleCmd "tdpos" "" "XC1111111111111111@xuper" true)
        (newDraft (okEnv "a") (sampleCmd "tdpos" "" "XC1111111111111111@xuper" true))).err
      = some (Errorf "tdpos needs desc file.\n") :=
  ⟨by decide, (tdposInvoke_missing_desc (okEnv "a") _ _ (by decide)).1⟩

/-- C3: with an empty account `xpoaInvoke` returns the error "xpoa needs acl account."
whatever the descriptor path, method, fee and multisig flag; it has then made no call
at all (no descriptor read, no address resolution, no finalizer) and the draft is the
one it was given. -/
theorem xpoaInvoke_missing_account (env : Env) (c : ConsensusInvokeCommand) (ct : CommTrans)
    (h : c.account = "") :
    (xpoaInvoke env c ct).err = some (Errorf "xpoa needs acl account.\n") ∧
    (xpoaInvoke env c ct).trace = [] ∧
    (xpoaInvoke env c ct).ct = ct := by
  simp [xpoaInvoke, h]

/-- Evaluation of C3 on a command with a descriptor and the multisig flag set. -/
theorem xpoaInvoke_missing_account_witness :
    (sampleCmd "xpoa" "desc.json" "" true).account = "" ∧
    (xpoaInvoke (okEnv "a") (sampleCmd "xpoa" "desc.json" "" true)
        (newDraft (okEnv "a") (sampleCmd "xpoa" "desc.json" "" true))).err
      = some (Errorf "xpoa needs acl account.\n") :=
  ⟨by decide, (xpoaInvoke_missing_account (okEnv "a") _ _ (by decide)).1⟩

/-! ## Closed forms of the successful runs -/

/-- On the bucket "tdpos", `invoke` is `tdposInvoke` on the fresh draft. -/
theorem invoke_tdpos (env : Env) (c : ConsensusInvokeCommand) (hb : c.bucket = "tdpos") :
    invoke env c = tdposInvoke env c (newDraft env c) := by
  simp [invoke, invokeMap, GoMap.get, consensusRun, hb]

/-- On the bucket "xpoa", `invoke` is `xpoaInvoke` on the fresh draft. -/
theorem invoke_xpoa (env : Env) (c : ConsensusInvokeCommand) (hb : c.bucket = "xpoa") :
    invoke env c = xpoaInvoke env c (newDraft env c) := by
  simp [invoke, invokeMap, GoMap.get, consensusRun, hb]

/-- The run of `tdposInvoke` when every step succeeds. -/
theorem tdposInvoke_ok (env : Env) (c : ConsensusInvokeCommand) (ct : CommTrans)
    (hd : c.descfile ≠ "") (hl : DescriptorLoads env c)
    (haddr : (env.readAddress ct.Keys).2 = none) :
    tdposInvoke env c ct =
      ⟨(env.Transfer (tdposFinal env c ct)).2, (env.Transfer (tdposFinal env c ct)).1,
        [Event.readFile c.descfile, Event.unmarshal (descBytes env c),
          Event.convert (descMap env c), Event.readAddress ct.Keys,
          Event.transfer (tdposFinal env c ct)]⟩ := by
  obtain ⟨h1, h2, h3⟩ := hl
  simp only [descBytes, descMap] at h2 h3
  by_cases ha : c.account = "" <;>
    simp [tdposInvoke, tdposFinal, hd, haddr, h1, h2, h3, ha, descBytes, descMap, descArgs]

/-- The run of `xpoaInvoke` when every step succeeds. -/
theorem xpoaInvoke_ok (env : Env) (c : ConsensusInvokeCommand) (ct : CommTrans)
    (hacc : c.account ≠ "") (hdesc : c.descfile = "" ∨ DescriptorLoads env c)
    (haddr : (env.readAddress ct.Keys).2 = none) :
    xpoaInvoke env c ct =
      ⟨(env.GenerateMultisigGenRawTx (xpoaFinal env c ct)).2,
        (env.GenerateMultisigGenRawTx (xpoaFinal env c ct)).1,
        (if c.descfile ≠ "" then
          [Event.readFile c.descfile, Event.unmarshal (descBytes env c),
            Event.convert (descMap env c)] else []) ++
          [Event.readAddress ct.Keys, Event.genMultisig (xpoaFinal env c ct)]⟩ := by
  by_cases hd : c.descfile = ""
  · simp [xpoaInvoke, xpoaFinal, hacc, hd, haddr]
  · obtain ⟨h1, h2, h3⟩ := hdesc.resolve_left hd
    simp only [descBytes, descMap] at h2 h3
    simp [xpoaInvoke, xpoaFinal, hacc, hd, haddr, h1, h2, h3, descBytes, descMap, descArgs]

/-- A finalizer event is one that carries a draft. -/
theorem isFinalizer_iff_draft (ev : Event) :
    ev.isFinalizer = true ↔ ∃ d, ev.draft? = some d := by
  cases ev <;> simp [Event.isFinalizer, Event.isTransfer, Event.isGenMultisig, Event.draft?]

/-- A draft reaches a finalizer in `tdposInvoke` only on the fully successful run, as
the argument of `Transfer`. -/
theorem tdposInvoke_draft (env : Env) (c : ConsensusInvokeCommand) (ct : CommTrans)
    (ev : Event) (d : CommTrans) (hev : ev ∈ (tdposInvoke env c ct).trace)
    (hd : ev.draft? = some d) :
    c.descfile ≠ "" ∧ DescriptorLoads env c ∧ (env.readAddress ct.Keys).2 = none ∧
      ev = Event.transfer d ∧ d = tdposFinal env c ct := by
  by_cases h0 : c.descfile = ""
  · simp [tdposInvoke, h0] at hev
  · rcases h1 : (env.ReadFile c.descfile).2 with _ | e1
    · rcases h2 : (env.Unmarshal (env.ReadFile c.descfile).1 []).2 with _ | e2
      · rcases h3 : (env.convertToXuper3Args
            (env.Unmarshal (env.ReadFile c.descfile).1 []).1).2 with _ | e3
        · have hl : DescriptorLoads env c := ⟨h1, h2, h3⟩
          rcases h4 : (env.readAddress ct.Keys).2 with _ | e4
          · rw [tdposInvoke_ok env c ct h0 hl h4] at hev
            simp at hev
            rcases hev with h | h | h | h | h <;> subst h <;> simp [Event.draft?] at hd
            exact ⟨h0, hl, rfl, by rw [hd], hd.symm⟩
          · simp [tdposInvoke, h0, h1, h2, h3, h4] at hev
            rcases hev with h | h | h | h <;> subst h <;> simp [Event.draft?] at hd
        · simp [tdposInvoke, h0, h1, h2, h3] at hev
          rcases hev with h | h | h <;> subst h <;> simp [Event.draft?] at hd
      · simp [tdposInvoke, h0, h1, h2] at hev
        rcases hev with h | h <;> subst h <;> simp [Event.draft?] at hd
    · simp [tdposInvoke, h0, h1] at hev
      subst hev
      simp [Event.draft?] at hd

/-- A draft reaches a finalizer in `xpoaInvoke` only on the fully successful run, as
the argument of `GenerateMultisigGenRawTx`. -/
theorem xpoaInvoke_draft (env : Env) (c : ConsensusInvokeCommand) (ct : CommTrans)
    (ev : Event) (d : CommTrans) (hev : ev ∈ (xpoaInvoke env c ct).trace)
    (hd : ev.draft? = some d) :
    c.account ≠ "" ∧ (c.descfile = "" ∨ DescriptorLoads env c) ∧
      (env.readAddress ct.Keys).2 = none ∧
      ev = Event.genMultisig d ∧ d = xpoaFinal env c ct := by
  by_cases ha : c.account = ""
  · simp [xpoaInvoke, ha] at hev
  · have fin : (c.descfile = "" ∨ DescriptorLoads env c) →
        c.account ≠ "" ∧ (c.descfile = "" ∨ DescriptorLoads env c) ∧
          (env.readAddress ct.Keys).2 = none ∧
          ev = Event.genMultisig d ∧ d = xpoaFinal env c ct := by
      intro hdesc
      rcases h4 : (env.readAddress ct.Keys).2 with _ | e4
      · rw [xpoaInvoke_ok env c ct ha hdesc h4] at hev
        by_cases h0 : c.descfile = "" <;> simp [h0] at hev
        · rcases hev with h | h <;> subst h <;> simp [Event.draft?] at hd
          exact ⟨ha, hdesc, rfl, by rw [hd], hd.symm⟩
        · rcases hev with h | h | h | h | h <;> subst h <;> simp [Event.draft?] at hd
          exact ⟨ha, hdesc, rfl, by rw [hd], hd.symm⟩
      · exfalso
        by_cases h0 : c.descfile = ""
        · simp [xpoaInvoke, ha, h0, h4] at hev
          subst hev
          simp [Event.draft?] at hd
        · obtain ⟨h1, h2, h3⟩ := hdesc.resolve_left h0
          simp only [descBytes, descMap] at h2 h3
          simp [xpoaInvoke, ha, h0, h1, h2, h3, h4] at hev
          rcases hev with h | h | h | h <;> subst h <;> simp [Event.draft?] at hd
    by_cases h0 : c.descfile = ""
    · exact fin (Or.inl h0)
    · rcases h1 : (env.ReadFile c.descfile).2 with _ | e1
      · rcases h2 : (env.Unmarshal (env.ReadFile c.descfile).1 []).2 with _ | e2
        · rcases h3 : (env.convertToXuper3Args
              (env.Unmarshal (env.ReadFile c.descfile).1 []).1).2 with _ | e3
          · exact fin (Or.inr ⟨h1, h2, h3⟩)
          · simp [xpoaInvoke, ha, h0, h1, h2, h3] at hev
            rcases hev with h | h | h <;> subst h <;> simp [Event.draft?] at hd
        · simp [xpoaInvoke, ha, h0, h1, h2] at hev
          rcases hev with h | h <;> subst h <;> simp [Event.draft?] at hd
      · simp [xpoaInvoke, ha, h0, h1] at hev
        subst hev
        simp [Event.draft?] at hd

/-! ## Choice of the finalizer -/

/-- The finalizer reached by a validated xpoa run, for the flag stored in the command. -/
theorem xpoa_multisig_run (env : Env) (c : ConsensusInvokeCommand)
    (hb : c.bucket = "xpoa") (hacc : c.account ≠ "")
    (hdesc : c.descfile = "" ∨ DescriptorLoads env c)
    (haddr : (env.readAddress c.cli.RootOptions.Keys).2 = none) :
    ∃ pre d, (invoke env c).trace = pre ++ [Event.genMultisig d] ∧
      (∀ ev ∈ pre, ev.isFinalizer = false) ∧
      (∀ ev ∈ (invoke env c).trace, ev.isTransfer = false) ∧
      d.IsQuick = c.isMulti ∧
      (invoke env c).err = (env.GenerateMultisigGenRawTx d).2 := by
  have hrun := xpoaInvoke_ok env c (newDraft env c) hacc hdesc haddr
  rw [invoke_xpoa env c hb, hrun]
  refine ⟨(if c.descfile ≠ "" then
      [Event.readFile c.descfile, Event.unmarshal (descBytes env c),
        Event.convert (descMap env c)] else []) ++
      [Event.readAddress c.cli.RootOptions.Keys],
    xpoaFinal env c (newDraft env c), ?_, ?_, ?_, ?_, rfl⟩
  · simp [newDraft]
  · intro ev hev
    by_cases hd : c.descfile = "" <;> simp [hd] at hev <;>
      (try rcases hev with h | h | h | h) <;>
      simp_all [Event.isFinalizer, Event.isTransfer, Event.isGenMultisig]
  · intro ev hev
    by_cases hd : c.descfile = "" <;> simp [hd] at hev <;>
      (try rcases hev with h | h | h | h | h) <;>
      simp_all [Event.isTransfer]
  · by_cases hd : c.descfile = "" <;> simp [xpoaFinal, newDraft, hd]

/-- C4: an xpoa request that passes validation (non-empty account, descriptor absent
or loaded and converted without error, address resolved) ends with exactly one
finalizer call, `GenerateMultisigGenRawTx`, and makes no call to `Transfer`, for
either value `b` of the `isMulti` flag; the flag only shows in the draft's `IsQuick`. -/
theorem xpoa_always_multisig (env : Env) (c : ConsensusInvokeCommand) (b : Bool)
    (hb : c.bucket = "xpoa") (hacc : c.account ≠ "")
    (hdesc : c.descfile = "" ∨ DescriptorLoads env c)
    (haddr : (env.readAddress c.cli.RootOptions.Keys).2 = none) :
    ∃ pre d, (invoke env { c with isMulti := b }).trace = pre ++ [Event.genMultisig d] ∧
      (∀ ev ∈ pre, ev.isFinalizer = false) ∧
      (∀ ev ∈ (invoke env { c with isMulti := b }).trace, ev.isTransfer = false) ∧
      d.IsQuick = b ∧
      (invoke env { c with isMulti := b }).err = (env.GenerateMultisigGenRawTx d).2 :=
  xpoa_multisig_run env { c with isMulti := b } hb hacc hdesc haddr

/-- Evaluation of C4 with the multisig flag off and no descriptor. -/
theorem xpoa_always_multisig_witness :
    (sampleCmd "xpoa" "" "XC1111111111111111@xuper" true).bucket = "xpoa" ∧
    (sampleCmd "xpoa" "" "XC1111111111111111@xuper" true).account ≠ "" ∧
    ((okEnv "a").readAddress
      (sampleCmd "xpoa" "" "XC1111111111111111@xuper" true).cli.RootOptions.Keys).2 = none ∧
    ∃ pre d,
      (invoke (okEnv "a")
        { sampleCmd "xpoa" "" "XC1111111111111111@xuper" true with isMulti := false }).trace
        = pre ++ [Event.genMultisig d] ∧
      (∀ ev ∈ pre, ev.isFinalizer = false) ∧
      (∀ ev ∈ (invoke (okEnv "a")
        { sampleCmd "xpoa" "" "XC1111111111111111@xuper" true with isMulti := false }).trace,
        ev.isTransfer = false) ∧
      d.IsQuick = false ∧
      (invoke (okEnv "a")
        { sampleCmd "xpoa" "" "XC1111111111111111@xuper" true with isMulti := false }).err
        = ((okEnv "a").GenerateMultisigGenRawTx d).2 :=
  ⟨by decide, by decide, by decide,
    xpoa_always_multisig (okEnv "a") (sampleCmd "xpoa" "" "XC1111111111111111@xuper" true) false
      (by decide) (by decide) (Or.inl (by decide)) (by decide)⟩

/-- C8: a tdpos request that passes validation (descriptor given, loaded and converted
without error, address resolved) makes exactly the calls read, parse, convert, resolve
and then `Transfer`; it never calls `GenerateMultisigGenRawTx`, returns the error that
`Transfer` returns, and the draft handed to `Transfer` carries the caller's `isMulti`
flag as `IsQuick`; this for every account, empty or not. -/
theorem tdpos_direct_transfer (env : Env) (c : ConsensusInvokeCommand)
    (hb : c.bucket = "tdpos") (hd : c.descfile ≠ "") (hl : DescriptorLoads env c)
    (haddr : (env.readAddress c.cli.RootOptions.Keys).2 = none) :
    ∃ d, (invoke env c).trace =
        [Event.readFile c.descfile, Event.unmarshal (descBytes env c),
          Event.convert (descMap env c), Event.readAddress c.cli.RootOptions.Keys,
          Event.transfer d] ∧
      (∀ ev ∈ (invoke env c).trace, ev.isGenMultisig = false) ∧
      (invoke env c).err = (env.Transfer d).2 ∧
      (invoke env c).ct = (env.Transfer d).1 ∧
      d.IsQuick = c.isMulti := by
  have hrun := tdposInvoke_ok env c (newDraft env c) hd hl haddr
  rw [invoke_tdpos env c hb, hrun]
  refine ⟨tdposFinal env c (newDraft env c), rfl, ?_, rfl, rfl, ?_⟩
  · intro ev hev
    simp at hev
    rcases hev with h | h | h | h | h <;> simp [h, Event.isGenMultisig]
  · by_cases ha : c.account = "" <;> simp [tdposFinal, newDraft, ha]

/-- Evaluation of C8 with the multisig flag on and an account. -/
theorem tdpos_direct_transfer_witness :
    (sampleCmd "tdpos" "desc.json" "XC1111111111111111@xuper" true).bucket = "tdpos" ∧
    (sampleCmd "tdpos" "desc.json" "XC1111111111111111@xuper" true).descfile ≠ "" ∧
    DescriptorLoads (okEnv "a") (sampleCmd "tdpos" "desc.json" "XC1111111111111111@xuper" true) ∧
    ∃ d, (invoke (okEnv "a")
        (sampleCmd "tdpos" "desc.json" "XC1111111111111111@xuper" true)).trace =
        [Event.readFile "desc.json", Event.unmarshal "\x7b\"k\": \"v\"\x7d",
          Event.convert [("k", DescValue.str "v")], Event.readAddress "./data/keys",
          Event.transfer d] ∧
      d.IsQuick = true :=
  ⟨by decide, by decide, by decide,
    (tdpos_direct_transfer (okEnv "a")
      (sampleCmd "tdpos" "desc.json" "XC1111111111111111@xuper" true)
      (by decide) (by decide) (by decide) (by decide)).imp
      (fun _ h => ⟨h.1, h.2.2.2.2⟩)⟩

/-! ## Failures -/

/-- C6: in both handlers, when reading the descriptor, parsing it, converting it or
resolving the address fails (the steps before it having succeeded), the handler
returns exactly the error of that step and calls neither `Transfer` nor
`GenerateMultisigGenRawTx`; conversely a finalizer is called only when every one of
these steps has succeeded. -/
theorem failure_aborts (env : Env) (c : ConsensusInvokeCommand) (ct : CommTrans)
    (e : GoError) :
    (c.descfile ≠ "" →
      (DescriptorFails env c e ∨
        (DescriptorLoads env c ∧ (env.readAddress ct.Keys).2 = some e)) →
      AbortsWith (tdposInvoke env c ct) e) ∧
    (c.account ≠ "" →
      ((c.descfile ≠ "" ∧ DescriptorFails env c e) ∨
        ((c.descfile = "" ∨ DescriptorLoads env c) ∧ (env.readAddress ct.Keys).2 = some e)) →
      AbortsWith (xpoaInvoke env c ct) e) ∧
    ((∃ ev ∈ (tdposInvoke env c ct).trace, ev.isFinalizer = true) →
      c.descfile ≠ "" ∧ DescriptorLoads env c ∧ (env.readAddress ct.Keys).2 = none) ∧
    ((∃ ev ∈ (xpoaInvoke env c ct).trace, ev.isFinalizer = true) →
      c.account ≠ "" ∧ (c.descfile = "" ∨ DescriptorLoads env c) ∧
        (env.readAddress ct.Keys).2 = none) := by
  refine ⟨?_, ?_, ?_, ?_⟩
  · intro h0 hf
    rcases hf with (h1 | ⟨h1, h2⟩ | ⟨h1, h2, h3⟩) | ⟨⟨h1, h2, h3⟩, h4⟩
    · simp [AbortsWith, tdposInvoke, h0, h1, Event.isFinalizer, Event.isTransfer,
        Event.isGenMultisig]
    · simp only [descBytes, descMap] at h2
      simp [AbortsWith, tdposInvoke, h0, h1, h2, Event.isFinalizer, Event.isTransfer,
        Event.isGenMultisig]
    · simp only [descBytes, descMap] at h2 h3
      simp [AbortsWith, tdposInvoke, h0, h1, h2, h3, Event.isFinalizer, Event.isTransfer,
        Event.isGenMultisig]
    · simp only [descBytes, descMap] at h2 h3
      simp [AbortsWith, tdposInvoke, h0, h1, h2, h3, h4, Event.isFinalizer, Event.isTransfer,
        Event.isGenMultisig]
  · intro ha hf
    rcases hf with ⟨h0, h1 | ⟨h1, h2⟩ | ⟨h1, h2, h3⟩⟩ | ⟨h0 | ⟨h1, h2, h3⟩, h4⟩
    · simp [AbortsWith, xpoaInvoke, ha, h0, h1, Event.isFinalizer, Event.isTransfer,
        Event.isGenMultisig]
    · simp only [descBytes, descMap] at h2
      simp [AbortsWith, xpoaInvoke, ha, h0, h1, h2, Event.isFinalizer, Event.isTransfer,
        Event.isGenMultisig]
    · simp only [descBytes, descMap] at h2 h3
      simp [AbortsWith, xpoaInvoke, ha, h0, h1, h2, h3, Event.isFinalizer, Event.isTransfer,
        Event.isGenMultisig]
    · simp [AbortsWith, xpoaInvoke, ha, h0, h4, Event.isFinalizer, Event.isTransfer,
        Event.isGenMultisig]
    · simp only [descBytes, descMap] at h2 h3
      by_cases h0 : c.descfile = "" <;>
        simp [AbortsWith, xpoaInvoke, ha, h0, h1, h2, h3, h4, Event.isFinalizer,
          Event.isTransfer, Event.isGenMultisig]
  · rintro ⟨ev, hev, hfin⟩
    obtain ⟨d, hd⟩ := (isFinalizer_iff_draft ev).1 hfin
    obtain ⟨h0, hl, h4, -, -⟩ := tdposInvoke_draft env c ct ev d hev hd
    exact ⟨h0, hl, h4⟩
  · rintro ⟨ev, hev, hfin⟩
    obtain ⟨d, hd⟩ := (isFinalizer_iff_draft ev).1 hfin
    obtain ⟨ha, hdesc, h4, -, -⟩ := xpoaInvoke_draft env c ct ev d hev hd
    exact ⟨ha, hdesc, h4⟩

/-- Evaluation of C6: a failing conversion in `tdposInvoke`, a failing address
resolution in `xpoaInvoke`. -/
theorem failure_aborts_witness :
    AbortsWith (tdposInvoke (failEnv 2) (sampleCmd "tdpos" "desc.json" "" false)
      (newDraft (failEnv 2) (sampleCmd "tdpos" "desc.json" "" false))) (Errorf "convert") ∧
    AbortsWith (xpoaInvoke (failEnv 3) (sampleCmd "xpoa" "desc.json" "acc" false)
      (newDraft (failEnv 3) (sampleCmd "xpoa" "desc.json" "acc" false))) (Errorf "address") :=
  ⟨(failure_aborts (failEnv 2) (sampleCmd "tdpos" "desc.json" "" false) _ (Errorf "convert")).1
      (by decide) (Or.inl (Or.inr (Or.inr ⟨by decide, by decide, by decide⟩))),
    (failure_aborts (failEnv 3) (sampleCmd "xpoa" "desc.json" "acc" false) _
      (Errorf "address")).2.1
      (by decide) (Or.inr ⟨Or.inr (by decide), by decide⟩)⟩

/-! ## The xpoa draft without a descriptor -/

/-- C7: for an xpoa request with a non-empty account and an empty descriptor path no
file is read, and when the address resolves the calls are the address resolution
followed by `GenerateMultisigGenRawTx` on a draft whose `Args` map is empty (so it has
neither an "account_name" nor an "acl" key), whose `From` is the account and whose `To`
is the resolved address; the handler returns what that finalizer returns. -/
theorem xpoa_without_descriptor (env : Env) (c : ConsensusInvokeCommand)
    (hb : c.bucket = "xpoa") (hacc : c.account ≠ "") (hd : c.descfile = "") :
    (∀ ev ∈ (invoke env c).trace, ev.isReadFile = false) ∧
    ((env.readAddress c.cli.RootOptions.Keys).2 = none →
      ∃ d, (invoke env c).trace =
          [Event.readAddress c.cli.RootOptions.Keys, Event.genMultisig d] ∧
        d.Args = [] ∧ d.Args.get "account_name" = none ∧ d.Args.get "acl" = none ∧
        d.From = c.account ∧ d.To = (env.readAddress c.cli.RootOptions.Keys).1 ∧
        (invoke env c).err = (env.GenerateMultisigGenRawTx d).2) := by
  rw [invoke_xpoa env c hb]
  constructor
  · rcases h4 : (env.readAddress c.cli.RootOptions.Keys).2 with _ | e4 <;>
      simp [xpoaInvoke, newDraft, hacc, hd, h4, Event.isReadFile]
  · intro h4
    rw [xpoaInvoke_ok env c (newDraft env c) hacc (Or.inl hd) h4]
    refine ⟨xpoaFinal env c (newDraft env c), ?_, ?_, ?_, ?_, ?_, ?_, rfl⟩ <;>
      simp [xpoaFinal, newDraft, hd, GoMap.get]

/-- Evaluation of C7 on a sample command. -/
theorem xpoa_without_descriptor_witness :
    (sampleCmd "xpoa" "" "XC1111111111111111@xuper" false).bucket = "xpoa" ∧
    (sampleCmd "xpoa" "" "XC1111111111111111@xuper" false).account ≠ "" ∧
    (sampleCmd "xpoa" "" "XC1111111111111111@xuper" false).descfile = "" ∧
    ∃ d, (invoke (okEnv "self") (sampleCmd "xpoa" "" "XC1111111111111111@xuper" false)).trace =
        [Event.readAddress "./data/keys", Event.genMultisig d] ∧
      d.Args = [] ∧ d.From = "XC1111111111111111@xuper" ∧ d.To = "self" :=
  ⟨by decide, by decide, by decide,
    (((xpoa_without_descriptor (okEnv "self")
      (sampleCmd "xpoa" "" "XC1111111111111111@xuper" false)
      (by decide) (by decide) (by decide)).2 (by decide))).imp
      (fun _ h => ⟨h.1, h.2.1, h.2.2.2.2.1, h.2.2.2.2.2.1⟩)⟩

/-! ## The header of the draft -/

/-- C9: for a command built by `NewConsensusInvokeCommand` with any flags, every draft
handed to `Transfer` or `GenerateMultisigGenRawTx` by `invoke` has `ModuleName`
"xkernel", `ContractName` "$" followed by the bucket, which is then "tdpos" or "xpoa",
`MethodName` the requested method, `Fee` the requested fee and `Amount` "0", and for
xpoa a non-empty `From`; and each handler, run on any draft, hands over a draft with the
same `ModuleName`, `ContractName`, `MethodName`, `Fee` and `Amount` as it was given. -/
theorem finalizer_draft_header (env : Env) (cli : Cli) (f : Flags)
    (c : ConsensusInvokeCommand) (ct : CommTrans) (ev : Event) (d : CommTrans)
    (hd : ev.draft? = some d) :
    (ev ∈ (invoke env (NewConsensusInvokeCommand cli f)).trace →
      d.ModuleName = "xkernel" ∧ d.ContractName = "$" ++ f.type ∧
      (f.type = "tdpos" ∨ f.type = "xpoa") ∧
      (d.ContractName = "$tdpos" ∨ d.ContractName = "$xpoa") ∧
      d.MethodName = f.method ∧ d.Fee = f.fee ∧ d.Amount = "0" ∧
      (f.type = "xpoa" → d.From ≠ "")) ∧
    ((ev ∈ (tdposInvoke env c ct).trace ∨ ev ∈ (xpoaInvoke env c ct).trace) →
      d.ModuleName = ct.ModuleName ∧ d.ContractName = ct.ContractName ∧
      d.MethodName = ct.MethodName ∧ d.Fee = ct.Fee ∧ d.Amount = ct.Amount) := by
  have htd : ∀ (c : ConsensusInvokeCommand) (ct : CommTrans),
      ev ∈ (tdposInvoke env c ct).trace →
      d.ModuleName = ct.ModuleName ∧ d.ContractName = ct.ContractName ∧
      d.MethodName = ct.MethodName ∧ d.Fee = ct.Fee ∧ d.Amount = ct.Amount := by
    intro c ct hev
    obtain ⟨-, -, -, -, rfl⟩ := tdposInvoke_draft env c ct ev d hev hd
    by_cases ha : c.account = "" <;> simp [tdposFinal, ha]
  have hxp : ∀ (c : ConsensusInvokeCommand) (ct : CommTrans),
      ev ∈ (xpoaInvoke env c ct).trace →
      (d.ModuleName = ct.ModuleName ∧ d.ContractName = ct.ContractName ∧
      d.MethodName = ct.MethodName ∧ d.Fee = ct.Fee ∧ d.Amount = ct.Amount) ∧
      d.From ≠ "" := by
    intro c ct hev
    obtain ⟨ha, -, -, -, rfl⟩ := xpoaInvoke_draft env c ct ev d hev hd
    by_cases h0 : c.descfile = "" <;> simp [xpoaFinal, h0, ha]
  refine ⟨?_, ?_⟩
  · intro hev
    by_cases h1 : f.type = "tdpos"
    · rw [invoke_tdpos env _ h1] at hev
      obtain ⟨m1, m2, m3, m4, m5⟩ := htd _ _ hev
      simp [m1, m2, m3, m4, m5, newDraft, NewConsensusInvokeCommand, ModuleName, h1]
    · by_cases h2 : f.type = "xpoa"
      · rw [invoke_xpoa env _ h2] at hev
        obtain ⟨⟨m1, m2, m3, m4, m5⟩, m6⟩ := hxp _ _ hev
        simp [m1, m2, m3, m4, m5, m6, newDraft, NewConsensusInvokeCommand, ModuleName, h2]
      · exfalso
        have hnone : invokeMap.get (NewConsensusInvokeCommand cli f).bucket = none := by
          simp [invokeMap, GoMap.get, NewConsensusInvokeCommand, Ne.symm h1, Ne.symm h2]
        simp [invoke, hnone] at hev
        subst hev
        simp [Event.draft?] at hd
  · rintro (hev | hev)
    · exact htd c ct hev
    · exact (hxp c ct hev).1

/-- Evaluation of C9 on the draft of a sample tdpos run. -/
theorem finalizer_draft_header_witness :
    (Event.transfer (tdposFinal (okEnv "a") (sampleCmd "tdpos" "desc.json" "" false)
      (newDraft (okEnv "a") (sampleCmd "tdpos" "desc.json" "" false)))).draft? =
      some (tdposFinal (okEnv "a") (sampleCmd "tdpos" "desc.json" "" false)
        (newDraft (okEnv "a") (sampleCmd "tdpos" "desc.json" "" false))) ∧
    Event.transfer (tdposFinal (okEnv "a") (sampleCmd "tdpos" "desc.json" "" false)
      (newDraft (okEnv "a") (sampleCmd "tdpos" "desc.json" "" false))) ∈
      (invoke (okEnv "a") (sampleCmd "tdpos" "desc.json" "" false)).trace ∧
    (tdposFinal (okEnv "a") (sampleCmd "tdpos" "desc.json" "" false)
      (newDraft (okEnv "a") (sampleCmd "tdpos" "desc.json" "" false))).ModuleName = "xkernel" :=
  ⟨rfl, by decide,
    ((finalizer_draft_header (okEnv "a") sampleCli
      { type := "tdpos", method := "nominateCandidate", desc := "desc.json", account := "",
        fee := "1000", isMulti := false }
      (sampleCmd "tdpos" "desc.json" "" false)
      (newDraft (okEnv "a") (sampleCmd "tdpos" "desc.json" "" false))
      (Event.transfer (tdposFinal (okEnv "a") (sampleCmd "tdpos" "desc.json" "" false)
        (newDraft (okEnv "a") (sampleCmd "tdpos" "desc.json" "" false))))
      (tdposFinal (okEnv "a") (sampleCmd "tdpos" "desc.json" "" false)
        (newDraft (okEnv "a") (sampleCmd "tdpos" "desc.json" "" false))) rfl).1
      (by decide)).1⟩

/-! ## Maps -/

/-- Reading the key just written. -/
theorem GoMap.get_set_self {β : Type} (m : GoMap β) (k : String) (v : β) :
    (m.set k v).get k = some v := by
  induction m with
  | nil => simp [GoMap.set, GoMap.get]
  | cons p rest ih =>
    obtain ⟨k', v'⟩ := p
    by_cases h : k' = k <;> simp [GoMap.set, GoMap.get, h, ih]

/-- Reading another key than the one just written. -/
theorem GoMap.get_set_other {β : Type} (m : GoMap β) (k k' : String) (v : β) (h : k ≠ k') :
    (m.set k v).get k' = m.get k' := by
  induction m with
  | nil => simp [GoMap.set, GoMap.get, h]
  | cons p rest ih =>
    obtain ⟨k0, v0⟩ := p
    by_cases h0 : k0 = k
    · subst h0
      simp [GoMap.set, GoMap.get, h]
    · by_cases h1 : k0 = k'
      · subst h1
        simp [GoMap.set, GoMap.get, h0]
      · simp [GoMap.set, GoMap.get, h0, h1, ih]

/-- A key that is not among the keys reads as absent. -/
theorem GoMap.get_of_not_mem_keys {β : Type} (m : GoMap β) (k : String)
    (h : k ∉ m.keys) : m.get k = none := by
  induction m with
  | nil => simp [GoMap.get]
  | cons p rest ih =>
    obtain ⟨k0, v0⟩ := p
    simp only [GoMap.keys, List.map_cons, List.mem_cons, not_or] at h
    have h1 : ¬ k0 = k := fun e => h.1 e.symm
    simp only [GoMap.get, h1, if_false]
    exact ih h.2

/-! ## The scanner on the ACL text -/

/-- The scanner over a concatenation runs over the first part and then the second. -/
theorem lexRun_append (st : LexState) (xs ys : List Char) :
    lexRun st (xs ++ ys) = (lexRun st xs).bind fun st' => lexRun st' ys := by
  induction xs generalizing st with
  | nil => simp [lexRun]
  | cons c cs ih =>
    simp only [List.cons_append, lexRun]
    cases lexStep st c with
    | none => simp
    | some st' => simpa using ih st'

/-- Inside a string the scanner keeps plain characters as they are. -/
theorem lexRun_plain (cs acc : List Char) (toks : List Token)
    (h : cs.all plainChar = true) :
    lexRun ⟨Mode.str acc, toks⟩ cs = some ⟨Mode.str (cs.reverse ++ acc), toks⟩ := by
  induction cs generalizing acc with
  | nil => simp [lexRun]
  | cons c rest ih =>
    simp only [List.all_cons, Bool.and_eq_true] at h
    obtain ⟨hc, hrest⟩ := h
    simp only [plainChar, Bool.and_eq_true, decide_eq_true_eq] at hc
    obtain ⟨⟨h1, h2⟩, h3⟩ := hc
    have h3' : ¬ c.toNat < 32 := by omega
    simp [lexRun, lexStep, h1, h2, h3', ih (c :: acc) hrest]

/-- The ACL text is the address between two fixed texts. -/
theorem simpleACL_data (addr : String) :
    (simpleACL addr).data = aclPrefix ++ (addr.data ++ aclSuffix) := by
  simp only [simpleACL, String.data_append, List.append_assoc]
  rfl

set_option maxRecDepth 100000 in
/-- The tokens of the ACL text around a plain address. -/
theorem lex_simpleACL (addr : String) (h : plainString addr = true) :
    lex (simpleACL addr).data =
      some [Token.lbrace, Token.str "pm", Token.colon, Token.lbrace, Token.str "rule",
        Token.colon, Token.num "1", Token.comma, Token.str "acceptValue", Token.colon,
        Token.num "1.0", Token.rbrace, Token.comma, Token.str "aksWeight", Token.colon,
        Token.lbrace, Token.str addr, Token.colon, Token.num "1.0", Token.rbrace,
        Token.rbrace] := by
  have hpre : lexRun ⟨Mode.top, []⟩ aclPrefix =
      some ⟨Mode.str [], [Token.lbrace, Token.colon, Token.str "aksWeight", Token.comma,
        Token.rbrace, Token.num "1.0", Token.colon, Token.str "acceptValue", Token.comma,
        Token.num "1", Token.colon, Token.str "rule", Token.lbrace, Token.colon,
        Token.str "pm", Token.lbrace]⟩ := by rfl
  have hsuf : ∀ (acc : List Char) (toks : List Token),
      lexRun ⟨Mode.str acc, toks⟩ aclSuffix =
        some ⟨Mode.top, Token.rbrace :: Token.rbrace :: Token.num "1.0" :: Token.colon ::
          Token.str (String.mk acc.reverse) :: toks⟩ := by
    intro acc toks
    rfl
  have hrun : lexRun ⟨Mode.top, []⟩ (simpleACL addr).data =
      some ⟨Mode.top, [Token.rbrace, Token.rbrace, Token.num "1.0", Token.colon,
        Token.str addr, Token.lbrace, Token.colon, Token.str "aksWeight", Token.comma,
        Token.rbrace, Token.num "1.0", Token.colon, Token.str "acceptValue", Token.comma,
        Token.num "1", Token.colon, Token.str "rule", Token.lbrace, Token.colon,
        Token.str "pm", Token.lbrace]⟩ := by
    rw [simpleACL_data, lexRun_append, hpre, Option.some_bind, lexRun_append,
      lexRun_plain addr.data [] _ h, Option.some_bind, hsuf]
    simp
  simp only [lex, hrun, Option.some_bind]
  rfl

/-- The document read from the ACL text around a plain address. -/
theorem readJSON_simpleACL (addr : String) (h : plainString addr = true) :
    readJSON (simpleACL addr) = some (singleSignerACL addr) := by
  simp only [readJSON, lex_simpleACL addr h, Option.some_bind]
  rfl

/-! ## The synthesized ACL -/

/-- C5, as amended: for a tdpos request whose descriptor loads and converts, with a
non-empty account and a resolved address made of characters that stand for themselves
in a JSON string (no double quote, no backslash, no control character below U+0020),
the one draft handed to the finalizer has "account_name" equal to the account, whatever
the descriptor supplied under that key, and an "acl" text that is well-formed JSON and
reads as the document with `pm` = (rule 1, acceptValue 1.0) and `aksWeight` holding the
single entry address ↦ 1.0. -/
theorem tdpos_acl_plain_address (env : Env) (c : ConsensusInvokeCommand)
    (hb : c.bucket = "tdpos") (hd : c.descfile ≠ "") (hl : DescriptorLoads env c)
    (haddr : (env.readAddress c.cli.RootOptions.Keys).2 = none) (hacc : c.account ≠ "")
    (hplain : plainString (env.readAddress c.cli.RootOptions.Keys).1 = true) :
    ACLHolds env c ∧
    ∃ d acl, finalizerDrafts (invoke env c).trace = [d] ∧
      d.Args.get "account_name" = some c.account ∧
      d.Args.get "acl" = some acl ∧
      readJSON acl = some (JVal.obj
        [("pm", JVal.obj [("rule", JVal.num "1"), ("acceptValue", JVal.num "1.0")]),
         ("aksWeight",
           JVal.obj [((env.readAddress c.cli.RootOptions.Keys).1, JVal.num "1.0")])]) := by
  have hrun := tdposInvoke_ok env c (newDraft env c) hd hl haddr
  have hdr : finalizerDrafts (invoke env c).trace = [tdposFinal env c (newDraft env c)] := by
    rw [invoke_tdpos env c hb, hrun]
    simp [finalizerDrafts, Event.draft?]
  have hname : (tdposFinal env c (newDraft env c)).Args.get "account_name" =
      some c.account := by
    simp only [tdposFinal, hacc, ne_eq, not_false_eq_true, if_true]
    rw [GoMap.get_set_other _ "acl" "account_name" _ (by decide), GoMap.get_set_self]
  have hacl : (tdposFinal env c (newDraft env c)).Args.get "acl" =
      some (simpleACL (env.readAddress c.cli.RootOptions.Keys).1) := by
    simp only [tdposFinal, hacc, ne_eq, not_false_eq_true, if_true]
    rw [GoMap.get_set_self]
    rfl
  have hread := readJSON_simpleACL _ hplain
  refine ⟨⟨_, hdr, hname, ?_⟩, _, _, hdr, hname, hacl, hread⟩
  rw [hacl]
  exact hread

/-- Evaluation of C5, as amended, at a base58 address. -/
theorem tdpos_acl_plain_address_witness :
    (sampleCmd "tdpos" "desc.json" "XC1111111111111111@xuper" false).bucket = "tdpos" ∧
    (sampleCmd "tdpos" "desc.json" "XC1111111111111111@xuper" false).account ≠ "" ∧
    plainString ((okEnv "dpzuVdosQrF2kmzumhVeFQZa1aYcdgFpN").readAddress "./data/keys").1
      = true ∧
    ACLHolds (okEnv "dpzuVdosQrF2kmzumhVeFQZa1aYcdgFpN")
      (sampleCmd "tdpos" "desc.json" "XC1111111111111111@xuper" false) :=
  ⟨by decide, by decide, by decide,
    (tdpos_acl_plain_address (okEnv "dpzuVdosQrF2kmzumhVeFQZa1aYcdgFpN")
      (sampleCmd "tdpos" "desc.json" "XC1111111111111111@xuper" false)
      (by decide) (by decide) (by decide) (by decide) (by decide) (by decide)).1⟩

set_option maxRecDepth 100000 in
/-- C5, as stated, fails: with the resolved address `a": 2.0, "b` (it contains double
quotes) the "acl" text of the draft reads as a document whose `aksWeight` has the two
entries a ↦ 2.0 and b ↦ 1.0, neither of them the address; with the address made of one
double quote, or of one backslash, the text is not well-formed JSON at all. -/
theorem tdpos_acl_quoted_address_counterexample :
    (finalizerDrafts (invoke (okEnv "a\": 2.0, \"b")
        (sampleCmd "tdpos" "desc.json" "XC1111111111111111@xuper" false)).trace).map
        (fun d => (d.Args.get "acl").bind readJSON) =
      [some (JVal.obj
        [("pm", JVal.obj [("rule", JVal.num "1"), ("acceptValue", JVal.num "1.0")]),
         ("aksWeight", JVal.obj [("a", JVal.num "2.0"), ("b", JVal.num "1.0")])])] ∧
    (finalizerDrafts (invoke (okEnv "\"")
        (sampleCmd "tdpos" "desc.json" "XC1111111111111111@xuper" false)).trace).map
        (fun d => (d.Args.get "acl").bind readJSON) = [none] ∧
    (finalizerDrafts (invoke (okEnv "\\")
        (sampleCmd "tdpos" "desc.json" "XC1111111111111111@xuper" false)).trace).map
        (fun d => (d.Args.get "acl").bind readJSON) = [none] ∧
    ¬ ACLHolds (okEnv "a\": 2.0, \"b")
        (sampleCmd "tdpos" "desc.json" "XC1111111111111111@xuper" false) ∧
    ¬ ACLHolds (okEnv "\"")
        (sampleCmd "tdpos" "desc.json" "XC1111111111111111@xuper" false) := by
  have k1 : (finalizerDrafts (invoke (okEnv "a\": 2.0, \"b")
        (sampleCmd "tdpos" "desc.json" "XC1111111111111111@xuper" false)).trace).map
        (fun d => (d.Args.get "acl").bind readJSON) =
      [some (JVal.obj
        [("pm", JVal.obj [("rule", JVal.num "1"), ("acceptValue", JVal.num "1.0")]),
         ("aksWeight", JVal.obj [("a", JVal.num "2.0"), ("b", JVal.num "1.0")])])] := by
    rfl
  have k2 : (finalizerDrafts (invoke (okEnv "\"")
        (sampleCmd "tdpos" "desc.json" "XC1111111111111111@xuper" false)).trace).map
        (fun d => (d.Args.get "acl").bind readJSON) = [none] := by
    rfl
  refine ⟨k1, k2, by rfl, ?_, ?_⟩
  · rintro ⟨d, h1, -, h3⟩
    rw [h1] at k1
    simp only [List.map_cons, List.map_nil, h3] at k1
    simp [singleSignerACL] at k1
  · rintro ⟨d, h1, -, h3⟩
    rw [h1] at k2
    simp only [List.map_cons, List.map_nil, h3] at k2
    simp at k2

/-! ## Decimal text -/

/-- The character of a decimal digit is a digit carrying that value, and is neither
the point nor the minus sign. -/
theorem digitChar_spec (d : Nat) (h : d < 10) :
    isDigit (digitChar d) = true ∧ digitVal (digitChar d) = d ∧
      digitChar d ≠ '.' ∧ digitChar d ≠ '-' ∧ (digitChar d = '0' → d = 0) := by
  interval_cases d <;> decide

/-- A digit is not the minus sign and not the point. -/
theorem isDigit_ne (c : Char) (h : isDigit c = true) : c ≠ '-' ∧ c ≠ '.' := by
  constructor <;> rintro rfl <;> revert h <;> decide

/-- With enough fuel the digits are those of `Nat.digits`. -/
theorem lsdDigits_eq (fuel n : Nat) (h : n ≤ fuel) : lsdDigits fuel n = Nat.digits 10 n := by
  induction fuel generalizing n with
  | zero =>
    have : n = 0 := by omega
    subst this
    simp [lsdDigits]
  | succ fuel ih =>
    by_cases hn : n = 0
    · subst hn
      simp [lsdDigits]
    · have hpos : 0 < n := Nat.pos_of_ne_zero hn
      rw [Nat.digits_def' (by norm_num) hpos]
      simp only [lsdDigits, hn, if_false]
      rw [ih (n / 10) (by omega)]

/-- Reading digits written most significant first. -/
theorem natOfDigits_reverse (l : List Nat) (h : ∀ d ∈ l, d < 10) :
    natOfDigits (l.reverse.map digitChar) = Nat.ofDigits 10 l := by
  induction l with
  | nil => simp [natOfDigits]
  | cons d l ih =>
    have hd := (digitChar_spec d (h d (List.mem_cons_self _ _))).2.1
    have ih' := ih fun x hx => h x (List.mem_cons_of_mem _ hx)
    simp only [natOfDigits] at ih'
    simp only [natOfDigits, List.reverse_cons, List.map_append, List.map_cons, List.map_nil,
      List.foldl_append, List.foldl_cons, List.foldl_nil, ih', hd, Nat.ofDigits_cons]
    omega

/-- Digits written as characters are digits. -/
theorem all_isDigit_reverse (l : List Nat) (h : ∀ d ∈ l, d < 10) :
    (l.reverse.map digitChar).all isDigit = true := by
  simp only [List.all_eq_true, List.mem_map, List.mem_reverse]
  rintro c ⟨d, hd, rfl⟩
  exact (digitChar_spec d (h d hd)).1

/-- The numeral of a natural number: digits only, not empty, read back as the number,
without a leading zero unless it is "0". -/
theorem natDigits_spec (n : Nat) :
    (natDigits n).all isDigit = true ∧ natDigits n ≠ [] ∧ natOfDigits (natDigits n) = n ∧
      (natDigits n = ['0'] ∨ (natDigits n).head? ≠ some '0') := by
  by_cases hn : n = 0
  · subst hn
    refine ⟨by decide, by decide, by decide, Or.inl (by decide)⟩
  · have hlt : ∀ d ∈ Nat.digits 10 n, d < 10 := fun d hd => Nat.digits_lt_base (by norm_num) hd
    have hne : Nat.digits 10 n ≠ [] := Nat.digits_ne_nil_iff_ne_zero.2 hn
    have hdef : natDigits n = (Nat.digits 10 n).reverse.map digitChar := by
      simp [natDigits, hn, lsdDigits_eq n n le_rfl]
    rw [hdef]
    refine ⟨all_isDigit_reverse _ hlt, ?_, ?_, Or.inr ?_⟩
    · simpa using hne
    · rw [natOfDigits_reverse _ hlt, Nat.ofDigits_digits]
    · have hlast := Nat.getLast_digit_ne_zero 10 hn
      obtain ⟨l, d, hl⟩ : ∃ l d, Nat.digits 10 n = l ++ [d] :=
        ⟨_, _, (List.dropLast_append_getLast hne).symm⟩
      have hd0 : d ≠ 0 := by
        simpa [hl] using hlast
      have hd10 : d < 10 := hlt d (by simp [hl])
      simp only [hl, List.reverse_append, List.reverse_cons, List.reverse_nil, List.nil_append,
        List.singleton_append, List.map_cons, List.head?_cons, ne_eq, Option.some.injEq]
      exact fun h0 => hd0 ((digitChar_spec d hd10).2.2.2.2 h0)

/-- The fixed-width digits: their number, their range and their value. -/
theorem fixDigits_spec (k r : Nat) :
    (fixDigits k r).length = k ∧ (∀ d ∈ fixDigits k r, d < 10) ∧
      Nat.ofDigits 10 (fixDigits k r) = r % 10 ^ k := by
  induction k generalizing r with
  | zero => simp [fixDigits, Nat.mod_one]
  | succ k ih =>
    obtain ⟨h1, h2, h3⟩ := ih (r / 10)
    refine ⟨by simp [fixDigits, h1], ?_, ?_⟩
    · intro d hd
      simp only [fixDigits, List.mem_cons] at hd
      rcases hd with rfl | hd
      · exact Nat.mod_lt _ (by norm_num)
      · exact h2 d hd
    · simp only [fixDigits, Nat.ofDigits_cons, h3]
      rw [pow_succ', Nat.mod_mul]

/-- Stripping trailing zeros keeps the quotient and leaves no trailing zero. -/
theorem stripZeros_spec (k n : Nat) :
    ((stripZeros k n).1 : ℚ) / (10 : ℚ) ^ (stripZeros k n).2 = (n : ℚ) / (10 : ℚ) ^ k ∧
      ((stripZeros k n).2 = 0 ∨ (stripZeros k n).1 % 10 ≠ 0) := by
  induction k generalizing n with
  | zero => simp [stripZeros]
  | succ k ih =>
    by_cases h : n % 10 = 0
    · simp only [stripZeros, h, if_true]
      obtain ⟨h1, h2⟩ := ih (n / 10)
      refine ⟨?_, h2⟩
      rw [h1]
      have hn : n = 10 * (n / 10) := by omega
      have hq : (n : ℚ) = 10 * ((n / 10 : ℕ) : ℚ) := by exact_mod_cast hn
      rw [hq, pow_succ]
      field_simp
      ring
    · simp [stripZeros, h]

/-- The text of `n / 10 ^ k` reads back as that quotient. -/
theorem readUnsigned_unsignedText (n k : Nat) :
    readUnsigned (unsignedText n k) = some ((n : ℚ) / (10 : ℚ) ^ k) := by
  obtain ⟨hall, hne, hval, -⟩ := natDigits_spec (n / 10 ^ k)
  have hall' : ∀ a ∈ natDigits (n / 10 ^ k), isDigit a = true := by
    simpa [List.all_eq_true] using hall
  by_cases hk : k = 0
  · subst hk
    simp only [unsignedText, if_true, List.append_nil, pow_zero, Nat.div_one, div_one] at *
    have ht0 : (natDigits n ++ ([] : List Char)).takeWhile isDigit =
        natDigits n ++ ([] : List Char).takeWhile isDigit :=
      List.takeWhile_append_of_pos hall'
    have hd0 : (natDigits n ++ ([] : List Char)).dropWhile isDigit =
        ([] : List Char).dropWhile isDigit :=
      List.dropWhile_append_of_pos hall'
    have ht : (natDigits n).takeWhile isDigit = natDigits n := by
      simpa using ht0
    have hd : (natDigits n).dropWhile isDigit = [] := by
      simpa using hd0
    simp [readUnsigned, ht, hd, hne, hval]
  · obtain ⟨flen, flt, fval⟩ := fixDigits_spec k n
    have fall := all_isDigit_reverse _ flt
    have fne : (fixDigits k n).reverse.map digitChar ≠ [] := by
      intro h0
      have := congrArg List.length h0
      simp [flen] at this
      exact hk this
    have ht : (unsignedText n k).takeWhile isDigit = natDigits (n / 10 ^ k) := by
      simp only [unsignedText, hk, if_false]
      rw [List.takeWhile_append_of_pos hall']
      simp [List.takeWhile, show isDigit '.' = false by decide]
    have hd : (unsignedText n k).dropWhile isDigit =
        '.' :: (fixDigits k n).reverse.map digitChar := by
      simp only [unsignedText, hk, if_false]
      rw [List.dropWhile_append_of_pos hall']
      simp [List.dropWhile, show isDigit '.' = false by decide]
    have hfv : natOfDigits ((fixDigits k n).reverse.map digitChar) = n % 10 ^ k := by
      rw [natOfDigits_reverse _ flt, fval]
    have hlen : ((fixDigits k n).reverse.map digitChar).length = k := by simp [flen]
    simp only [readUnsigned, ht, hd]
    rw [if_neg (by simpa using hne), if_pos ⟨trivial, fne, fall⟩, hval, hfv, hlen]
    congr 1
    have hsplit : n = 10 ^ k * (n / 10 ^ k) + n % 10 ^ k := (Nat.div_add_mod n (10 ^ k)).symm
    have hq : (n : ℚ) = (10 : ℚ) ^ k * ((n / 10 ^ k : ℕ) : ℚ) + ((n % 10 ^ k : ℕ) : ℚ) := by
      exact_mod_cast hsplit
    have h10 : ((10 : ℚ) ^ k) ≠ 0 := pow_ne_zero _ (by norm_num)
    field_simp
    linarith

/-- The text of `n / 10 ^ k` is canonical when `n` has no trailing zero to strip. -/
theorem isCanonicalUnsigned_unsignedText (n k : Nat) (h : k = 0 ∨ n % 10 ≠ 0) :
    isCanonicalUnsigned (unsignedText n k) = true := by
  obtain ⟨hall, hne, -, hhead⟩ := natDigits_spec (n / 10 ^ k)
  have hall' : ∀ a ∈ natDigits (n / 10 ^ k), isDigit a = true := by
    simpa [List.all_eq_true] using hall
  have hip : (natDigits (n / 10 ^ k) = ['0'] ||
      (!(natDigits (n / 10 ^ k)).isEmpty &&
        decide ((natDigits (n / 10 ^ k)).head? ≠ some '0'))) = true := by
    rcases hhead with h0 | h0
    · simp [h0]
    · have : (natDigits (n / 10 ^ k)).isEmpty = false := by simpa using hne
      simp [h0, this]
  by_cases hk : k = 0
  · subst hk
    simp only [unsignedText, if_true, List.append_nil, pow_zero, Nat.div_one] at *
    have ht0 : (natDigits n ++ ([] : List Char)).takeWhile isDigit =
        natDigits n ++ ([] : List Char).takeWhile isDigit :=
      List.takeWhile_append_of_pos hall'
    have hd0 : (natDigits n ++ ([] : List Char)).dropWhile isDigit =
        ([] : List Char).dropWhile isDigit :=
      List.dropWhile_append_of_pos hall'
    have ht : (natDigits n).takeWhile isDigit = natDigits n := by
      simpa using ht0
    have hd : (natDigits n).dropWhile isDigit = [] := by
      simpa using hd0
    simp only [isCanonicalUnsigned, ht, hd, hip, Bool.and_self]
  · have hn10 : n % 10 ≠ 0 := h.resolve_left hk
    obtain ⟨k', rfl⟩ : ∃ k', k = k' + 1 := ⟨k - 1, by omega⟩
    obtain ⟨flen, flt, -⟩ := fixDigits_spec (k' + 1) n
    have fall := all_isDigit_reverse _ flt
    have ht : (unsignedText n (k' + 1)).takeWhile isDigit = natDigits (n / 10 ^ (k' + 1)) := by
      simp only [unsignedText, hk, if_false]
      rw [List.takeWhile_append_of_pos hall']
      simp [List.takeWhile, show isDigit '.' = false by decide]
    have hd : (unsignedText n (k' + 1)).dropWhile isDigit =
        '.' :: (fixDigits (k' + 1) n).reverse.map digitChar := by
      simp only [unsignedText, hk, if_false]
      rw [List.dropWhile_append_of_pos hall']
      simp [List.dropWhile, show isDigit '.' = false by decide]
    have hlast : ((fixDigits (k' + 1) n).reverse.map digitChar).getLast? ≠ some '0' := by
      simp only [fixDigits, List.reverse_cons, List.map_append, List.map_cons, List.map_nil,
        List.getLast?_append, List.getLast?_singleton, ne_eq]
      intro h0
      have h0' : digitChar (n % 10) = '0' := by simpa [Option.or] using h0
      exact hn10 ((digitChar_spec _ (Nat.mod_lt _ (by norm_num))).2.2.2.2 h0')
    have hemp : ((fixDigits (k' + 1) n).reverse.map digitChar).isEmpty = false := by
      simp [fixDigits]
    simp only [isCanonicalUnsigned, ht, hd, hip, fall, hemp, hlast, Bool.true_and, Bool.not_false,
      decide_True, ne_eq, not_false_eq_true, Bool.and_self]

/-- The decimal pair of a binary64 number is its magnitude, without a trailing zero. -/
theorem Float64.decimal_spec (f : Float64) :
    ((f.decimal.1 : ℚ) / (10 : ℚ) ^ f.decimal.2 = (f.mant : ℚ) * (2 : ℚ) ^ f.exp) ∧
      (f.decimal.2 = 0 ∨ f.decimal.1 % 10 ≠ 0) := by
  by_cases h : 0 ≤ f.exp
  · obtain ⟨e, he⟩ := Int.eq_ofNat_of_zero_le h
    simp [Float64.decimal, h, he]
  · obtain ⟨e, he⟩ : ∃ e : Nat, f.exp = -(e : Int) := ⟨(-f.exp).toNat, by omega⟩
    have h' : ¬ (0 ≤ -(e : Int)) := by rw [← he]; exact h
    simp only [Float64.decimal, he, h', if_false, neg_neg, Int.toNat_ofNat]
    obtain ⟨h1, h2⟩ := stripZeros_spec e (f.mant * 5 ^ e)
    refine ⟨?_, h2⟩
    rw [h1, zpow_neg, zpow_natCast]
    have h10 : (10 : ℚ) ^ e = 2 ^ e * 5 ^ e := by rw [← mul_pow]; norm_num
    rw [h10]
    push_cast
    field_simp
    ring

/-- The decimal text of a binary64 number reads back as exactly that number, is
canonical, and starts with the minus sign exactly when the sign bit is set. -/
theorem decimalText_spec (f : Float64) :
    readDecimal (decimalText f).data = some f.value ∧
      isCanonicalDecimal (decimalText f).data = true ∧
      ((decimalText f).data.head? = some '-' ↔ f.neg = true) := by
  obtain ⟨hv, hc⟩ := f.decimal_spec
  have hread := readUnsigned_unsignedText f.decimal.1 f.decimal.2
  have hcan := isCanonicalUnsigned_unsignedText f.decimal.1 f.decimal.2 hc
  obtain ⟨hall, hne, -, -⟩ := natDigits_spec (f.decimal.1 / 10 ^ f.decimal.2)
  obtain ⟨c, rest, hcr, hcd⟩ : ∃ c rest,
      unsignedText f.decimal.1 f.decimal.2 = c :: rest ∧ isDigit c = true := by
    cases hnd : natDigits (f.decimal.1 / 10 ^ f.decimal.2) with
    | nil => exact absurd hnd hne
    | cons c0 r =>
      refine ⟨c0, r ++ (if f.decimal.2 = 0 then []
        else '.' :: (fixDigits f.decimal.2 f.decimal.1).reverse.map digitChar),
        by simp [unsignedText, hnd], ?_⟩
      rw [hnd] at hall
      simpa using (List.all_eq_true.1 hall) c0 (List.mem_cons_self _ _)
  have hc' : c ≠ '-' := (isDigit_ne c hcd).1
  by_cases hs : f.neg = true
  · simp only [decimalText, hs, if_true, List.singleton_append, readDecimal, isCanonicalDecimal,
      hread, hcan, Option.map_some', Float64.value, hv, and_true, Option.some.injEq,
      List.head?_cons]
    ring
  · simp only [Bool.not_eq_true] at hs
    simp only [decimalText, hs, Bool.false_eq_true, if_false, List.nil_append, Float64.value]
    rw [hcr] at hread hcan ⊢
    have e1 : readDecimal (c :: rest) = readUnsigned (c :: rest) := by
      unfold readDecimal
      split
      · rename_i heq
        simp only [List.cons.injEq] at heq
        exact absurd heq.1.symm (fun h => hc' h.symm)
      · rfl
    have e2 : isCanonicalDecimal (c :: rest) = isCanonicalUnsigned (c :: rest) := by
      unfold isCanonicalDecimal
      split
      · rename_i heq
        simp only [List.cons.injEq] at heq
        exact absurd heq.1.symm (fun h => hc' h.symm)
      · rfl
    rw [e1, e2, hread, hcan, hv]
    simp [hs, hc']

/-! ## The argument converter -/

/-- The converter loop over a map whose values are all of a supported kind: it succeeds,
and each key reads as the converted value of the descriptor, or as before the loop when
the descriptor does not have it. -/
theorem convertLoop_get (args : DescMap) (argmap : Args)
    (hconv : ∀ p ∈ args, (convertValue p.2).isSome = true) (hnd : args.keys.Nodup) :
    (convertLoop argmap args).2 = none ∧
    ∀ k, (convertLoop argmap args).1.get k =
      match args.get k with
      | some v => convertValue v
      | none => argmap.get k := by
  induction args generalizing argmap with
  | nil => simp [convertLoop, GoMap.get]
  | cons p rest ih =>
    obtain ⟨k0, v0⟩ := p
    have hv0 := hconv (k0, v0) (List.mem_cons_self _ _)
    obtain ⟨b, hb⟩ := Option.isSome_iff_exists.1 hv0
    simp only [GoMap.keys, List.map_cons, List.nodup_cons] at hnd
    obtain ⟨hk0, hrest⟩ := hnd
    have ih' := ih (argmap.set k0 b) (fun p hp => hconv p (List.mem_cons_of_mem _ hp)) hrest
    simp only [convertLoop, hb]
    refine ⟨ih'.1, fun k => ?_⟩
    rw [ih'.2 k]
    by_cases hk : k0 = k
    · subst hk
      rw [GoMap.get_of_not_mem_keys rest k0 hk0]
      simp [GoMap.get, GoMap.get_set_self, hb]
    · simp only [GoMap.get, hk, if_false]
      cases GoMap.get rest k with
      | none => simp [GoMap.get_set_other _ _ _ _ hk]
      | some v => rfl

/-- The arguments of every draft a handler hands to a finalizer come from the
converter of the environment, run on the parsed descriptor. -/
theorem handler_args_from_converter (env : Env) (c : ConsensusInvokeCommand) (ct : CommTrans)
    (d : CommTrans) :
    (d ∈ finalizerDrafts (xpoaInvoke env c ct).trace → c.descfile ≠ "" →
      d.Args = (env.convertToXuper3Args (descMap env c)).1) ∧
    (d ∈ finalizerDrafts (tdposInvoke env c ct).trace →
      ∀ k, k ≠ "account_name" → k ≠ "acl" →
        d.Args.get k = (env.convertToXuper3Args (descMap env c)).1.get k) := by
  constructor
  · intro hd h0
    obtain ⟨ev, hev, hdr⟩ := List.mem_filterMap.1 hd
    obtain ⟨-, -, -, -, rfl⟩ := xpoaInvoke_draft env c ct ev d hev hdr
    simp [xpoaFinal, h0, descArgs]
  · intro hd k hk1 hk2
    obtain ⟨ev, hev, hdr⟩ := List.mem_filterMap.1 hd
    obtain ⟨-, -, -, -, rfl⟩ := tdposInvoke_draft env c ct ev d hev hdr
    by_cases ha : c.account = ""
    · simp [tdposFinal, ha, descArgs]
    · simp only [tdposFinal, ha, ne_eq, not_false_eq_true, if_true]
      rw [GoMap.get_set_other _ _ _ _ (Ne.symm hk2), GoMap.get_set_other _ _ _ _ (Ne.symm hk1)]
      rfl

/-- C10: the converter, as the specification describes it, turns a string into its own
bytes, a boolean into "true" or "false", and every number (a binary64 value) into a
text that is a canonical positional decimal numeral, carries the minus sign exactly when
the number does, and reads back as exactly that number, so that 3 gives "3", -12 gives
"-12" and 3.5 gives "3.5"; on a map whose values are all of a supported kind it
succeeds and the result has a key exactly when the descriptor has it, holding the
converted value; the map with a ↦ "x", b ↦ 3, c ↦ true gives the keys a, b, c with the
bytes "x", "3" and "true"; and in both handlers run with this converter, the arguments
of a draft that reaches a finalizer are its output on the parsed descriptor (in
`tdposInvoke` apart from the keys "account_name" and "acl"). -/
theorem convertToXuper3Args_spec (args : DescMap)
    (hconv : ∀ p ∈ args, (convertValue p.2).isSome = true) (hnd : args.keys.Nodup) :
    (∀ s, convertValue (DescValue.str s) = some s) ∧
    (∀ f : Float64, ∃ t, convertValue (DescValue.num f) = some t ∧
      readDecimal t.data = some f.value ∧ isCanonicalDecimal t.data = true ∧
      (t.data.head? = some '-' ↔ f.neg = true)) ∧
    convertValue (DescValue.num (Float64.ofInt 3 (by decide))) = some "3" ∧
    convertValue (DescValue.num (Float64.ofInt (-12) (by decide))) = some "-12" ∧
    convertValue (DescValue.num ⟨false, 7, -1, by decide, by decide, by decide⟩) = some "3.5" ∧
    convertValue (DescValue.bool true) = some "true" ∧
    convertValue (DescValue.bool false) = some "false" ∧
    (convertToXuper3Args args).2 = none ∧
    (∀ k, (convertToXuper3Args args).1.get k = (args.get k).bind convertValue) ∧
    (∀ k, ((convertToXuper3Args args).1.get k).isSome = true ↔ (args.get k).isSome = true) ∧
    convertToXuper3Args
        [("a", DescValue.str "x"), ("b", DescValue.num (Float64.ofInt 3 (by decide))),
          ("c", DescValue.bool true)] =
      ([("a", "x"), ("b", "3"), ("c", "true")], none) ∧
    GoMap.keys (convertToXuper3Args
        [("a", DescValue.str "x"), ("b", DescValue.num (Float64.ofInt 3 (by decide))),
          ("c", DescValue.bool true)]).1 =
      ["a", "b", "c"] ∧
    (∀ (env : Env) (c : ConsensusInvokeCommand) (ct d : CommTrans),
      env.convertToXuper3Args = convertToXuper3Args →
      (d ∈ finalizerDrafts (xpoaInvoke env c ct).trace → c.descfile ≠ "" →
        d.Args = (convertToXuper3Args (descMap env c)).1) ∧
      (d ∈ finalizerDrafts (tdposInvoke env c ct).trace →
        ∀ k, k ≠ "account_name" → k ≠ "acl" →
          d.Args.get k = (convertToXuper3Args (descMap env c)).1.get k)) := by
  have h := convertLoop_get args [] hconv hnd
  have hget : ∀ k, (convertToXuper3Args args).1.get k = (args.get k).bind convertValue := by
    intro k
    have hk := h.2 k
    simp only [convertToXuper3Args]
    rw [hk]
    cases args.get k <;> simp [GoMap.get]
  refine ⟨fun _ => rfl, fun f => ⟨decimalText f, rfl, decimalText_spec f⟩, by decide, by decide,
    by decide, rfl, rfl, h.1, hget, fun k => ?_, by decide, by decide, ?_⟩
  · rw [hget k]
    cases hk : args.get k with
    | none => simp
    | some v =>
      have hmem : (k, v) ∈ args := by
        clear h hget hconv hnd
        induction args with
        | nil => simp [GoMap.get] at hk
        | cons p rest ih =>
          obtain ⟨k0, v0⟩ := p
          by_cases h0 : k0 = k
          · simp [GoMap.get, h0] at hk
            simp [h0, hk]
          · simp only [GoMap.get, h0, if_false] at hk
            exact List.mem_cons_of_mem _ (ih hk)
      simpa using hconv (k, v) hmem
  · intro env c ct d henv
    have hh := handler_args_from_converter env c ct d
    rw [henv] at hh
    exact hh

/-- Evaluation of C10 on the map of the specification, alone and inside a run of
`xpoaInvoke` with the converter of the specification. -/
theorem convertToXuper3Args_spec_witness :
    (convertToXuper3Args
        [("a", DescValue.str "x"), ("b", DescValue.num (Float64.ofInt 3 (by decide))),
          ("c", DescValue.bool true)]).2 = none ∧
    (convertToXuper3Args
        [("a", DescValue.str "x"), ("b", DescValue.num (Float64.ofInt 3 (by decide))),
          ("c", DescValue.bool true)]).1.get "b" = some "3" ∧
    (finalizerDrafts (xpoaInvoke specEnv (sampleCmd "xpoa" "desc.json" "acc" false)
        (newDraft specEnv (sampleCmd "xpoa" "desc.json" "acc" false))).trace).map
        (fun d => d.Args) = [[("a", "x"), ("b", "3"), ("c", "true")]] :=
  ⟨(convertToXuper3Args_spec
      [("a", DescValue.str "x"), ("b", DescValue.num (Float64.ofInt 3 (by decide))),
        ("c", DescValue.bool true)]
      (by decide) (by decide)).2.2.2.2.2.2.2.1,
    ((convertToXuper3Args_spec
      [("a", DescValue.str "x"), ("b", DescValue.num (Float64.ofInt 3 (by decide))),
        ("c", DescValue.bool true)]
      (by decide) (by decide)).2.2.2.2.2.2.2.2.1 "b").trans (by decide),
    by decide⟩

end ConsensusInvoke
